import Mathlib

/-!
Shallow embedding of the CanvasTool.PngEncoder repository (imaya), covering
the Zlib/DEFLATE encoder (`zlib.deflate.js`, `src/zlib.rawdeflate.js`) and
the PNG chunk framer / Adam7 interlacer (`src/CanvasTool/pngencoder.js`).

Conventions used throughout:
* JS byte arrays are `List Nat`; array reads that may hit a hole/out-of-bounds
  are modelled with `List.get?` (JS `undefined`) or `List.getD _ _ 0` where the
  source arithmetic collapses `undefined` to `0`.
* JS `x | 0` (ToInt32 of a truncated float) is `jsToInt32` over `Int.tdiv`
  (both truncate toward zero).
* Functions that `throw` in the source return `Except String _`.
-/

set_option maxRecDepth 1000000

namespace ZlibJS

/-- JS ToInt32: wrap an integer into the signed 32-bit range. -/
def jsToInt32 (x : Int) : Int :=
  let m := x % (4294967296 : Int)
  if m < 2147483648 then m else m - 4294967296

/-- Write `v` at index `i`, extending the list with zeros if `i` is past the
end (JS array assignment extends the array; intermediate holes read as 0 in
all arithmetic contexts that occur in this code). -/
def jsSet (l : List Nat) (i : Nat) (v : Nat) : List Nat :=
  if i < l.length then l.set i v
  else l ++ List.replicate (i - l.length) 0 ++ [v]

/-- Big-endian byte expansion, at least one byte (the do-while in
`convertNetworkByteOrder`). Structural recursion on a fuel that dominates
the digit count so the kernel can evaluate it; the loop always exits by
its own `n < 256` test first. -/
def toBytesBEGo : Nat → Nat → List Nat
  | 0, n => [n]
  | fuel + 1, n => if n < 256 then [n] else toBytesBEGo fuel (n / 256) ++ [n % 256]

/-- Big-endian byte expansion, at least one byte. -/
def toBytesBE (n : Nat) : List Nat :=
  toBytesBEGo n n

/-- Zlib.Util.convertNetworkByteOrder / the private helper in zlib.deflate.js:
emit big-endian bytes of `number`, left-padded with zero bytes to `padding`. -/
def convertNetworkByteOrder (number : Nat) (padding : Nat) : List Nat :=
  let tmp := toBytesBE number
  List.replicate (padding - tmp.length) 0 ++ tmp

/-- One step of Zlib.updateAdler32's loop:
`s1 = (s1 + byte) % 65521; s2 = (s2 + s1) % 65521`. -/
def adlerStep (s : Nat × Nat) (b : Nat) : Nat × Nat :=
  let s1 := (s.1 + b) % 65521
  ((s1, (s.2 + s1) % 65521) : Nat × Nat)

/-- Zlib.updateAdler32. The JS result `(s2 << 16) | s1` is a signed 32-bit
value; every consumer (convertNetworkByteOrder) reinterprets it as the
unsigned value `s2 * 65536 + s1`, which is what we return. -/
def updateAdler32 (adler : Nat) (array : List Nat) : Nat :=
  let s1 := adler % 65536
  let s2 := (adler / 65536) % 65536
  let r := array.foldl adlerStep (s1, s2)
  r.2 * 65536 + r.1

/-- Zlib.adler32. -/
def adler32 (array : List Nat) : Nat :=
  updateAdler32 1 array

/-- Zlib.Deflate.CompressionType. -/
inductive CompressionType where
  | NONE
  | FIXED
  | CUSTOM
  | RESERVED
deriving DecidableEq

/-- Zlib.Deflate.prototype.makeNocompressBlock: stored-block header
(BFINAL | BTYPE<<1, LEN little-endian, NLEN little-endian) prepended to the
block data. `nlen = (~len + 0x10000) & 0xffff`. -/
def makeNocompressBlock (blockArray : List Nat) (isFinalBlock : Bool) : List Nat :=
  let bfinal : Nat := if isFinalBlock then 1 else 0
  let btype : Nat := 0
  let len := blockArray.length
  let nlen := (65535 - len % 65536) % 65536
  (bfinal ||| (btype <<< 1)) :: (len % 256) :: ((len >>> 8) % 256) ::
    (nlen % 256) :: ((nlen >>> 8) % 256) :: blockArray

/-- The CompressionType.NONE loop of Zlib.Deflate.prototype.makeBlocks:
split the buffer into 65535-byte slices, marking only the last slice final.
An empty buffer yields no block at all (the loop body never runs). -/
def noneBlocksGo : Nat → List Nat → List Nat
  | 0, _ => []
  | fuel + 1, buffer =>
    if buffer = [] then []
    else
      let blockArray := buffer.take 65535
      let rest := buffer.drop 65535
      makeNocompressBlock blockArray (rest = []) ++ noneBlocksGo fuel rest

/-- One fuel unit per emitted block suffices: each block consumes at least
one byte. -/
def noneBlocks (buffer : List Nat) : List Nat :=
  noneBlocksGo buffer.length buffer

/-- BitStream.prototype.reverseByte applied to a byte value: reverse the low
8 bits. -/
def reverseByteVal (src : Nat) : Nat :=
  (List.range 8).foldl (fun p _ => ((p.1 <<< 1) ||| (p.2 &&& 1), p.2 >>> 1)) ((0 : Nat), src) |>.1

/-- Zlib.BitStream state: completed (already bit-reversed) bytes live at
indices below `index`; a partial byte (accumulated MSB-first) at `index`. -/
structure BitStream where
  index : Nat
  bitindex : Nat
  buffer : List Nat

/-- The fresh bit stream `new Zlib.BitStream()`. -/
def BitStream.empty : BitStream :=
  ⟨0, 0, []⟩

/-- One iteration of the BitStream.prototype.writeBits loop: push a single
bit `add` into the accumulator, reversing and closing the byte on the 8th
bit. -/
def BitStream.writeBit (s : BitStream) (add : Nat) : BitStream :=
  let cur := s.buffer.getD s.index 0
  let v := (cur <<< 1) ||| add
  if s.bitindex + 1 = 8 then
    ⟨s.index + 1, 0, jsSet s.buffer s.index (reverseByteVal v)⟩
  else
    ⟨s.index, s.bitindex + 1, jsSet s.buffer s.index v⟩

/-- Zlib.BitStream.prototype.writeBits: append the low `n` bits of `number`,
LSB-first when `reverse` is true, MSB-first otherwise. -/
def BitStream.writeBits (s : BitStream) (number : Nat) (n : Nat) (reverse : Bool) : BitStream :=
  (List.range n).foldl
    (fun st i =>
      let add := if reverse then (number >>> i) &&& 1 else (number >>> (n - i - 1)) &&& 1
      st.writeBit add) s

/-- Zlib.BitStream.prototype.finish (called `finite` in zlib.deflate.js):
left-align a partial byte and reverse it. Note that when `bitindex = 0` the
source still calls `reverseByte(index)` on the absent byte `buffer[index]`,
which materialises an extra 0x00 byte at the end (JS `undefined` arithmetic
collapses to 0 and the assignment extends the array); we reproduce that. -/
def BitStream.finish (s : BitStream) : List Nat :=
  let buf := if s.bitindex > 0 then
    jsSet s.buffer s.index ((s.buffer.getD s.index 0) <<< (8 - s.bitindex))
  else s.buffer
  jsSet buf s.index (reverseByteVal (buf.getD s.index 0))

/-- Zlib.RawDeflate.FixedHuffmanTable as a function: RFC 1951 fixed
literal/length codes, `(code, bit length)` per symbol. Symbols past 287 have
no table entry in the source (reads of them would be `undefined`); we return
`(0, 0)` which makes the corresponding `writeBits` a no-op, and no caller
ever passes such a symbol. -/
def FixedHuffmanTable (i : Nat) : Nat × Nat :=
  if i ≤ 143 then (i + 0x030, 8)
  else if i ≤ 255 then (i - 144 + 0x190, 9)
  else if i ≤ 279 then (i - 256, 7)
  else if i ≤ 287 then (i - 280 + 0x0C0, 8)
  else (0, 0)

/-- Lz77Match.prototype.getLengthCode_: `(code, extra bits value, number of
extra bits)` for a match length in [3,258]. The source throws on any other
value; no caller produces one (see theorem relating to claim C2), and we
return `(0, 0, 0)` there. -/
def getLengthCode (length : Nat) : Nat × Nat × Nat :=
  if length = 3 then (257, length - 3, 0)
  else if length = 4 then (258, length - 4, 0)
  else if length = 5 then (259, length - 5, 0)
  else if length = 6 then (260, length - 6, 0)
  else if length = 7 then (261, length - 7, 0)
  else if length = 8 then (262, length - 8, 0)
  else if length = 9 then (263, length - 9, 0)
  else if length = 10 then (264, length - 10, 0)
  else if length ≤ 12 then (265, length - 11, 1)
  else if length ≤ 14 then (266, length - 13, 1)
  else if length ≤ 16 then (267, length - 15, 1)
  else if length ≤ 18 then (268, length - 17, 1)
  else if length ≤ 22 then (269, length - 19, 2)
  else if length ≤ 26 then (270, length - 23, 2)
  else if length ≤ 30 then (271, length - 27, 2)
  else if length ≤ 34 then (272, length - 31, 2)
  else if length ≤ 42 then (273, length - 35, 3)
  else if length ≤ 50 then (274, length - 43, 3)
  else if length ≤ 58 then (275, length - 51, 3)
  else if length ≤ 66 then (276, length - 59, 3)
  else if length ≤ 82 then (277, length - 67, 4)
  else if length ≤ 98 then (278, length - 83, 4)
  else if length ≤ 114 then (279, length - 99, 4)
  else if length ≤ 130 then (280, length - 115, 4)
  else if length ≤ 162 then (281, length - 131, 5)
  else if length ≤ 194 then (282, length - 163, 5)
  else if length ≤ 226 then (283, length - 195, 5)
  else if length ≤ 257 then (284, length - 227, 5)
  else if length = 258 then (285, length - 258, 0)
  else (0, 0, 0)

/-- Lz77Match.prototype.getDistanceCode_: `(code, extra bits value, number
of extra bits)` for a distance in [1,32768]. The source throws otherwise; no
caller produces such a value and we return `(0, 0, 0)` there. -/
def getDistanceCode (dist : Nat) : Nat × Nat × Nat :=
  if dist = 1 then (0, dist - 1, 0)
  else if dist = 2 then (1, dist - 2, 0)
  else if dist = 3 then (2, dist - 3, 0)
  else if dist = 4 then (3, dist - 4, 0)
  else if dist ≤ 6 then (4, dist - 5, 1)
  else if dist ≤ 8 then (5, dist - 7, 1)
  else if dist ≤ 12 then (6, dist - 9, 2)
  else if dist ≤ 16 then (7, dist - 13, 2)
  else if dist ≤ 24 then (8, dist - 17, 3)
  else if dist ≤ 32 then (9, dist - 25, 3)
  else if dist ≤ 48 then (10, dist - 33, 4)
  else if dist ≤ 64 then (11, dist - 49, 4)
  else if dist ≤ 96 then (12, dist - 65, 5)
  else if dist ≤ 128 then (13, dist - 97, 5)
  else if dist ≤ 192 then (14, dist - 129, 6)
  else if dist ≤ 256 then (15, dist - 193, 6)
  else if dist ≤ 384 then (16, dist - 257, 7)
  else if dist ≤ 512 then (17, dist - 385, 7)
  else if dist ≤ 768 then (18, dist - 513, 8)
  else if dist ≤ 1024 then (19, dist - 769, 8)
  else if dist ≤ 1536 then (20, dist - 1025, 9)
  else if dist ≤ 2048 then (21, dist - 1537, 9)
  else if dist ≤ 3072 then (22, dist - 2049, 10)
  else if dist ≤ 4096 then (23, dist - 3073, 10)
  else if dist ≤ 6144 then (24, dist - 4097, 11)
  else if dist ≤ 8192 then (25, dist - 6145, 11)
  else if dist ≤ 12288 then (26, dist - 8193, 12)
  else if dist ≤ 16384 then (27, dist - 12289, 12)
  else if dist ≤ 24576 then (28, dist - 16385, 13)
  else if dist ≤ 32768 then (29, dist - 24577, 13)
  else (0, 0, 0)

/-- Lz77Match.prototype.toLz77Array: the 6-entry internal micro-format
`[lenCode, lenExtraValue, lenExtraBits, distCode, distExtraValue,
distExtraBits]`. -/
def toLz77Array (length dist : Nat) : List Nat :=
  let l := getLengthCode length
  let d := getDistanceCode dist
  [l.1, l.2.1, l.2.2, d.1, d.2.1, d.2.2]

/-- JS `dataArray[a] !== dataArray[b]` negated: two reads are "equal" when
both are in bounds with the same value, or both are out of bounds (both
`undefined`). `Option` equality captures this exactly. -/
def jsEq (data : List Nat) (a b : Nat) : Bool :=
  data.get? a == data.get? b

/-- The 8-byte block test inside the stride phase of searchLongestMatch_.
The source scans `i = matchStep - 1` down to `0` with early exit; the
resulting boolean is the conjunction over all eight offsets. -/
def blockEqual (data : List Nat) (q p m : Nat) : Bool :=
  (List.range 8).all (fun i => jsEq data (q + m + i) (p + m + i))

/-- The stride phase of Zlib.RawDeflate.prototype.searchLongestMatch_:
starting from `matchLength = Lz77MinLength = 3`, advance in steps of
`matchStep = 8`, keeping only the candidates whose next 8 bytes match,
until no candidate survives or `matchLength` reaches
`matchLimit = Lz77MaxLength = 258`. Returns the surviving candidate list
and the final `matchLength`. -/
def strideLoopGo (data : List Nat) (p : Nat) : Nat → List Nat → Nat → List Nat × Nat
  | 0, lastMatch, m => (lastMatch, m)
  | fuel + 1, lastMatch, m =>
    if m < 258 then
      let survivors := lastMatch.filter (fun q => blockEqual data q p m)
      if survivors.isEmpty then (lastMatch, m)
      else strideLoopGo data p fuel survivors (m + 8)
    else (lastMatch, m)

/-- Entry point with enough fuel for every iteration the `m < 258` guard
permits (m starts at 3 and grows by 8). -/
def strideLoop (data : List Nat) (p : Nat) (lastMatch : List Nat) (m : Nat) :
    List Nat × Nat :=
  strideLoopGo data p 33 lastMatch m

/-- The single-byte refinement phase of searchLongestMatch_: up to
`matchStep = 8` single-byte extensions while `matchLength < 258`. -/
def refineLoopGo (data : List Nat) (p : Nat) : Nat → List Nat → Nat → List Nat × Nat
  | 0, lastMatch, len => (lastMatch, len)
  | fuel + 1, lastMatch, len =>
    if len < 258 then
      let survivors := lastMatch.filter (fun q => jsEq data (q + len) (p + len))
      if survivors.isEmpty then (lastMatch, len)
      else refineLoopGo data p fuel survivors (len + 1)
    else (lastMatch, len)

/-- The refinement loop runs `i = 0 .. matchStep - 1`; the remaining
iteration count `8 - i` is the structural fuel. -/
def refineLoop (data : List Nat) (p : Nat) (lastMatch : List Nat) (len i : Nat) :
    List Nat × Nat :=
  refineLoopGo data p (8 - i) lastMatch len

/-- `Math.max.apply(this, list)` for the (always nonempty at call sites)
candidate lists; on `[]` JS would give `-Infinity`, we give 0. -/
def listMax (l : List Nat) : Nat :=
  l.foldl max 0

/-- Zlib.RawDeflate.prototype.searchLongestMatch_: staged longest-match
search returning `(length, backwardDistance)`. After the stride phase the
source decrements `matchLength` once (when above the minimum) and refines by
single bytes; the distance is to the largest (= nearest) surviving
candidate. -/
def searchLongestMatch (data : List Nat) (position : Nat) (matchList : List Nat) :
    Nat × Nat :=
  let s1 := strideLoop data position matchList 3
  let m2 := if s1.2 > 3 then s1.2 - 1 else s1.2
  let s2 := refineLoop data position s1.1 m2 0
  (s2.2, position - listMax s2.1)

/-- One LZ77 output item: a literal byte pushed by `lz77buf.push`, or the
`Lz77Match` produced by searchLongestMatch_ (we also record the position at
which it was emitted, which the flat encoding below discards). -/
inductive Lz77Token where
  | lit (b : Nat)
  | mat (pos length dist : Nat)
deriving DecidableEq

/-- Flat encoding of a token into the lz77 output buffer: a literal is a
bare byte, a match contributes its `toLz77Array`. -/
def Lz77Token.encode : Lz77Token → List Nat
  | .lit b => [b]
  | .mat _ l d => toLz77Array l d

/-- `freqs[i]++` on a JS array. -/
def incAt (f : List Nat) (i : Nat) : List Nat :=
  jsSet f i (f.getD i 0 + 1)

/-- The running state of Zlib.RawDeflate.prototype.lz77: the match table
(`this.matchTable`, a total map defaulting to the empty bucket), the skip
counter, the tokens emitted so far, and the two frequency arrays kept when
the compression type is dynamic (CUSTOM). -/
structure Lz77State where
  table : Nat → List Nat
  skipLength : Nat
  tokens : List Lz77Token
  freqsLitLen : List Nat
  freqsDist : List Nat

/-- Pointwise update of the match table. -/
def tableSet (t : Nat → List Nat) (k : Nat) (v : List Nat) : Nat → List Nat :=
  fun x => if x = k then v else t x

/-- The main `for (position = 0; position < length; position++)` loop of
Zlib.RawDeflate.prototype.lz77. Each iteration: build the (up to) 3-byte
key; if fewer than 3 bytes remain and no skip is pending, flush the
remaining literals and stop; otherwise, when not skipping, purge the head
of the key's bucket of positions farther than WindowSize = 32768, emit
either the longest match (setting the skip counter) or a literal, and in
every case append the current position to the bucket. -/
def lz77LoopGo (data : List Nat) (isDynamic : Bool) : Nat → Nat → Lz77State → Lz77State
  | 0, _, st => st
  | fuel + 1, pos, st =>
    if pos < data.length then
    let matchKeyArray := (data.drop pos).take 3
    if matchKeyArray.length < 3 ∧ st.skipLength = 0 then
      { st with
        tokens := st.tokens ++ matchKeyArray.map Lz77Token.lit,
        freqsLitLen := if isDynamic then matchKeyArray.foldl incAt st.freqsLitLen
                       else st.freqsLitLen }
    else
      let matchKey := matchKeyArray.foldl (fun k b => (k <<< 8) ||| (b % 256)) 0
      if st.skipLength > 0 then
        lz77LoopGo data isDynamic fuel (pos + 1)
          { st with
            skipLength := st.skipLength - 1,
            table := tableSet st.table matchKey (st.table matchKey ++ [pos]) }
      else
        let matchList := (st.table matchKey).dropWhile (fun q => 32768 < pos - q)
        if matchList.isEmpty then
          lz77LoopGo data isDynamic fuel (pos + 1)
            { st with
              tokens := st.tokens ++ [.lit (data.getD pos 0)],
              freqsLitLen := if isDynamic then incAt st.freqsLitLen (data.getD pos 0)
                             else st.freqsLitLen,
              table := tableSet st.table matchKey (matchList ++ [pos]) }
        else
          let lm := searchLongestMatch data pos matchList
          let lz77Array := toLz77Array lm.1 lm.2
          lz77LoopGo data isDynamic fuel (pos + 1)
            { st with
              tokens := st.tokens ++ [.mat pos lm.1 lm.2],
              freqsLitLen := if isDynamic then incAt st.freqsLitLen (lz77Array.getD 0 0)
                             else st.freqsLitLen,
              freqsDist := if isDynamic then incAt st.freqsDist (lz77Array.getD 3 0)
                           else st.freqsDist,
              skipLength := lm.1 - 1,
              table := tableSet st.table matchKey (matchList ++ [pos]) }
    else st

/-- The `for (position = 0; position < length; position++)` loop needs at
most `data.length` further iterations from position `pos`. -/
def lz77Loop (data : List Nat) (isDynamic : Bool) (pos : Nat) (st : Lz77State) : Lz77State :=
  lz77LoopGo data isDynamic (data.length - pos) pos st

/-- Zlib.RawDeflate.prototype.lz77 (`lzss` in zlib.deflate.js): run the main
loop from position 0 with empty state (frequency arrays preinitialised to
zeros when dynamic), then append the end-of-block literal 256 and count it. -/
def lz77Run (data : List Nat) (isDynamic : Bool) : Lz77State :=
  let f0 : List Nat := if isDynamic then List.replicate 286 0 else []
  let g0 : List Nat := if isDynamic then List.replicate 30 0 else []
  let st := lz77Loop data isDynamic 0 ⟨fun _ => [], 0, [], f0, g0⟩
  { st with
    tokens := st.tokens ++ [.lit 256],
    freqsLitLen := if isDynamic then incAt st.freqsLitLen 256 else st.freqsLitLen }

/-- The flat LZ77 output buffer (`lz77buf` / `lzssbuf`). -/
def lz77 (data : List Nat) (isDynamic : Bool) : List Nat :=
  (lz77Run data isDynamic).tokens.flatMap Lz77Token.encode

/-- The match tokens of an LZ77 run, as `(position, length, distance)`
triples. -/
def lz77Matches (data : List Nat) (isDynamic : Bool) : List (Nat × Nat × Nat) :=
  (lz77Run data isDynamic).tokens.filterMap
    (fun t => match t with
      | .mat p l d => some (p, l, d)
      | .lit _ => none)

/-- The interleaved heap buffer of Zlib.Heap, modelled as a list of
`(index, value)` pairs (the JS flat array stores them at slots `2j`,
`2j+1`). -/
abbrev HeapBuf := List (Nat × Int)

/-- Value of pair `j` (JS `heap[2j+1]`); reads past the end are never
compared at call sites. -/
def heapVal (l : HeapBuf) (j : Nat) : Int :=
  (l.getD j (0, 0)).2

/-- Swap two pairs (the index/value double swap in push and pop). -/
def pairSwap (l : HeapBuf) (i j : Nat) : HeapBuf :=
  let a := l.getD i (0, 0)
  let b := l.getD j (0, 0)
  (l.set i b).set j a

/-- The sift-up loop of Zlib.Heap.prototype.push. JS `getParent` on slot
`2j` is pair `(j-1)/2`. -/
def siftUpGo (buf : HeapBuf) : Nat → Nat → HeapBuf
  | 0, _ => buf
  | fuel + 1, current =>
    if current > 0 then
      let parent := (current - 1) / 2
      if heapVal buf current < heapVal buf parent then
        siftUpGo (pairSwap buf current parent) fuel parent
      else buf
    else buf

/-- The sift-up walk strictly decreases the pair index, so `current` units
of fuel always suffice. -/
def siftUp (buf : HeapBuf) (current : Nat) : HeapBuf :=
  siftUpGo buf current current

/-- Zlib.Heap.prototype.push: append the pair and sift up. -/
def heapPush (buf : HeapBuf) (index : Nat) (value : Int) : HeapBuf :=
  siftUp (buf ++ [(index, value)]) buf.length

/-- The sift-down loop of Zlib.Heap.prototype.pop. JS `getChild` on slot
`2j` is pair `2j+1`; the neighbour check picks the right child when its
value is strictly smaller. -/
def siftDownGo : Nat → HeapBuf → Nat → HeapBuf
  | 0, buf, _ => buf
  | fuel + 1, buf, parent =>
    if 2 * parent + 1 < buf.length then
      if 2 * parent + 2 < buf.length ∧ heapVal buf (2 * parent + 2) < heapVal buf (2 * parent + 1)
      then
        if heapVal buf parent > heapVal buf (2 * parent + 2) then
          siftDownGo fuel (pairSwap buf parent (2 * parent + 2)) (2 * parent + 2)
        else buf
      else
        if heapVal buf parent > heapVal buf (2 * parent + 1) then
          siftDownGo fuel (pairSwap buf parent (2 * parent + 1)) (2 * parent + 1)
        else buf
    else buf

/-- The sift-down walk strictly increases the pair index while it stays
below the buffer length, so `buf.length` units of fuel always suffice. -/
def siftDown (buf : HeapBuf) (parent : Nat) : HeapBuf :=
  siftDownGo buf.length buf parent

/-- Zlib.Heap.prototype.pop: return the root pair, move the last pair to
the root, shrink, and sift down. -/
def heapPop (buf : HeapBuf) : (Nat × Int) × HeapBuf :=
  let root := buf.getD 0 (0, 0)
  let last := buf.getD (buf.length - 1) (0, 0)
  (root, siftDown ((buf.set 0 last).dropLast) 0)

/-- The Huffman tree construction loop of getLengths_: while more than one
pair remains, pop the two smallest, record their parent `i`, and push the
combined weight under index `i`. Returns the parent array and the final
`i`. -/
def treeLoopGo : Nat → HeapBuf → List Nat → Nat → List Nat × Nat
  | 0, _, parent, i => (parent, i)
  | fuel + 1, heap, parent, i =>
    if heap.length > 1 then
      let p1 := heapPop heap
      let p2 := heapPop p1.2
      let parent2 := (parent.set p1.1.1 i).set p2.1.1 i
      treeLoopGo fuel (heapPush p2.2 i (p1.1.2 + p2.1.2)) parent2 (i + 1)
    else (parent, i)

/-- Each iteration removes two pairs and pushes one back, so the initial
pair count is enough fuel. -/
def treeLoop (heap : HeapBuf) (parent : List Nat) (i : Nat) : List Nat × Nat :=
  treeLoopGo heap.length heap parent i

/-- The promotion loop of getLengths_: while fewer than two symbols have
nonzero frequency, shift an index off the zero list and give it frequency 1.
(With fewer than two symbols overall the source would loop forever; the
alphabets used are of sizes 19, 30 and 286.) -/
def promote (nSymbols : Nat) (freqs : List Int) (freqsZero : List Nat) :
    List Int × List Nat :=
  if nSymbols - freqsZero.length < 2 then
    match freqsZero with
    | [] => (freqs, [])
    | z :: rest => promote nSymbols (freqs.set z 1) rest
  else (freqs, freqsZero)

/-- Zlib.RawDeflate.prototype.getLengths_. Returns the per-symbol code
lengths together with the frequency array as mutated in place by the source
(promotion and limit adjustment), because one call site reuses the mutated
array. Notes on fidelity:
* `totalFreq` is summed from an uninitialised variable in the first scan
  (NaN) but is only read in the limit branch, which first resets it to 0 and
  never re-sums (the re-summing block is commented out in the source); hence
  `num = 0 - smallestFreq * maxProb` below.
* `adjust` is the JS `((num + denom - 1) / denom) | 0`: float division
  truncated toward zero, i.e. `Int.tdiv` (exact for these magnitudes),
  wrapped by ToInt32. No clamping to 0 is performed by the source.
* the heap-build loop runs `i` to `2 * nSymbols`, where reads past the
  frequency array are `undefined > 0 = false`. -/
def getLengths (freqs0 : List Int) (optLimit : Option Nat) :
    Except String (List Nat × List Int) :=
  let nSymbols := freqs0.length
  let maxN := 2 * nSymbols
  let freqsZero0 := (List.range nSymbols).filter (fun i => freqs0.getD i 0 = 0)
  let smallestFreq : Int := (List.range nSymbols).foldl
    (fun s i => if freqs0.getD i 0 ≠ 0 ∧ freqs0.getD i 0 < s then freqs0.getD i 0 else s)
    0xffffffff
  let pr := promote nSymbols freqs0 freqsZero0
  let adjusted : Except String (List Int) :=
    match optLimit with
    | none => .ok pr.1
    | some limit =>
      if limit > 0 then
        if limit ≠ 7 ∧ limit ≠ 15 then .error "invalid limit number"
        else
          let maxProb : Int := if limit = 15 then 2584 else 55
          let num : Int := 0 - smallestFreq * maxProb
          let denom : Int := maxProb - ((nSymbols : Int) - pr.2.length)
          let adjust : Int := jsToInt32 (Int.tdiv (num + denom - 1) denom)
          .ok (pr.1.map (fun f => if f ≠ 0 then f + adjust else f))
      else .ok pr.1
  match adjusted with
  | .error e => .error e
  | .ok freqs2 =>
    let heap0 := (List.range maxN).foldl
      (fun h i => if freqs2.getD i 0 > 0 then heapPush h i (freqs2.getD i 0) else h) []
    let tl := treeLoop heap0 (List.replicate maxN 0) nSymbols
    let lengthsArr := (List.range (tl.2 + 1)).reverse.foldl
      (fun lengths i =>
        if tl.1.getD i 0 > 0 then lengths.set i (1 + lengths.getD (tl.1.getD i 0) 0)
        else lengths)
      (List.replicate maxN 0)
    .ok (lengthsArr.take nSymbols, freqs2)

/-- The `while (runLength > 0)` zero-run encoder inside getTreeSymbols_:
chop a zero run into symbols 17 (3-10 zeros) / 18 (11-138 zeros), avoiding a
leftover of 1 or 2. -/
def zeroRunsGo : Nat → Nat → List Nat → List Nat → List Nat × List Nat
  | 0, _, result, freqs => (result, freqs)
  | fuel + 1, runLength, result, freqs =>
    if runLength > 0 then
      let rpt0 := if runLength < 138 then runLength else 138
      let rpt := if rpt0 > runLength - 3 ∧ rpt0 < runLength then runLength - 3 else rpt0
      if rpt ≤ 10 then
        zeroRunsGo fuel (runLength - rpt) (result ++ [17, rpt - 3]) (incAt freqs 17)
      else
        zeroRunsGo fuel (runLength - rpt) (result ++ [18, rpt - 11]) (incAt freqs 18)
    else (result, freqs)

/-- Every chunk removes at least one zero, so `runLength` units of fuel
always suffice. -/
def zeroRuns (runLength : Nat) (result freqs : List Nat) : List Nat × List Nat :=
  zeroRunsGo runLength runLength result freqs

/-- The `while (runLength > 0)` repeat encoder inside getTreeSymbols_:
chop a run of repeats of the previous length into symbols 16 (3-6 repeats),
avoiding a leftover of 1 or 2. -/
def repeatRunsGo : Nat → Nat → List Nat → List Nat → List Nat × List Nat
  | 0, _, result, freqs => (result, freqs)
  | fuel + 1, runLength, result, freqs =>
    if runLength > 0 then
      let rpt0 := if runLength < 6 then runLength else 6
      let rpt := if rpt0 > runLength - 3 ∧ rpt0 < runLength then runLength - 3 else rpt0
      repeatRunsGo fuel (runLength - rpt) (result ++ [16, rpt - 3]) (incAt freqs 16)
    else (result, freqs)

/-- Every chunk removes at least one repeat, so `runLength` units of fuel
always suffice. -/
def repeatRuns (runLength : Nat) (result freqs : List Nat) : List Nat × List Nat :=
  repeatRunsGo runLength runLength result freqs

/-- The run-length-encoding outer loop of getTreeSymbols_ (`i += j` with
`j` the length of the run starting at `i`). -/
def getTreeSymbolsGo : Nat → List Nat → List Nat → List Nat → List Nat × List Nat
  | 0, _, result, freqs => (result, freqs)
  | fuel + 1, src, result, freqs =>
    match src with
    | [] => (result, freqs)
    | v :: rest =>
      let j := 1 + (rest.takeWhile (fun x => x = v)).length
      let remaining := rest.drop (j - 1)
      if v = 0 then
        if j < 3 then
          getTreeSymbolsGo fuel remaining (result ++ List.replicate j 0)
            ((List.range j).foldl (fun f _ => incAt f 0) freqs)
        else
          let zr := zeroRuns j result freqs
          getTreeSymbolsGo fuel remaining zr.1 zr.2
      else
        let result1 := result ++ [v]
        let freqs1 := incAt freqs v
        let run2 := j - 1
        if run2 < 3 then
          getTreeSymbolsGo fuel remaining (result1 ++ List.replicate run2 v)
            ((List.range run2).foldl (fun f _ => incAt f v) freqs1)
        else
          let rr := repeatRuns run2 result1 freqs1
          getTreeSymbolsGo fuel remaining rr.1 rr.2

/-- Zlib.RawDeflate.prototype.getTreeSymbols_: run-length encode the first
`hlit` literal/length code lengths followed by the first `hdist` distance
code lengths over the 19-symbol code-length alphabet (extra-bit values are
interleaved into the symbol stream), returning `(codes, freqs)`. -/
def getTreeSymbols (hlit : Nat) (litlenLengths : List Nat) (hdist : Nat)
    (distLengths : List Nat) : List Nat × List Nat :=
  let src := litlenLengths.take hlit ++ distLengths.take hdist
  getTreeSymbolsGo src.length src [] (List.replicate 19 0)

/-- The "Mirrored, of course" inner loop of getCodesFromLengths_: reverse
the low `len` bits of `code`. -/
def bitRevCode (len code : Nat) : Nat :=
  ((List.range len).foldl (fun p _ => ((p.1 <<< 1) ||| (p.2 &&& 1), p.2 >>> 1)) (0, code)).1

/-- The starting-code loop of getCodesFromLengths_ (`i = 1 .. 16`):
`startCode[i] = code; code += count[i]; throw on overcommit; code <<= 1`.
The accumulator list carries `startCode[0..i-1]`, with slot 0 a sentinel for
the `undefined` the JS array holds there (it is read only for zero-length
symbols, whose emitted code is 0 regardless; see `getCodesFromLengths`). -/
def kraftScanGo (count : Nat → Nat) : Nat → Nat → Nat → List Nat →
    Except String (Nat × List Nat)
  | 0, _, code, start => .ok (code, start)
  | fuel + 1, i, code, start =>
    if i ≤ 16 then
      let code2 := code + count i
      if code2 > (1 <<< i) then .error "overcommitted"
      else kraftScanGo count fuel (i + 1) (code2 <<< 1) (start ++ [code])
    else .ok (code, start)

/-- The loop runs `i = 1 .. 16`; `17 - i` units of fuel always suffice. -/
def kraftScan (count : Nat → Nat) (i code : Nat) (start : List Nat) :
    Except String (Nat × List Nat) :=
  kraftScanGo count (17 - i) i code start

/-- Zlib.RawDeflate.prototype.getCodesFromLengths_ (MaxCodeLength = 16). -/
def getCodesFromLengths (lengths : List Nat) : Except String (List Nat) :=
  let count : Nat → Nat := fun l => lengths.count l
  match kraftScan count 1 0 [0] with
  | .error e => .error e
  | .ok (code, startCode) =>
    if code < (1 <<< 16) then .error "undercommitted"
    else
      .ok (lengths.foldl
        (fun (st : List Nat × List Nat) len =>
          let c := st.1.getD len 0
          (st.1.set len (c + 1), st.2 ++ [bitRevCode len c]))
        (startCode, [])).2

/-- The write calls issued by the token loop of
Zlib.RawDeflate.prototype.fixedHuffman, as `(value, bit count, reverse)`
triples, by structural recursion over the flat LZ77 buffer (the source
walks an index with `++index` jumps over the 5 entries trailing a length
code; a truncated final group, which the LZ77 stage never produces, is cut
short here where JS would emit `undefined`-valued writes). -/
def fixedHuffmanWrites : List Nat → List (Nat × Nat × Bool)
  | [] => []
  | literal :: rest =>
    let t := FixedHuffmanTable literal
    if literal > 256 then
      match rest with
      | lenExtra :: lenExtraBits :: dcode :: dExtra :: dExtraBits :: rest2 =>
        (t.1, t.2, false) :: (lenExtra, lenExtraBits, true) :: (dcode, 5, false) ::
          (dExtra, dExtraBits, true) :: fixedHuffmanWrites rest2
      | _ => [(t.1, t.2, false)]
    else if literal = 256 then [(t.1, t.2, false)]
    else (t.1, t.2, false) :: fixedHuffmanWrites rest

/-- Zlib.RawDeflate.prototype.fixedHuffman: stream the writes and finish. -/
def fixedHuffman (dataArray : List Nat) (stream : BitStream) : List Nat :=
  ((fixedHuffmanWrites dataArray).foldl
    (fun s w => s.writeBits w.1 w.2.1 w.2.2) stream).finish

/-- The write calls issued by the token loop of
Zlib.RawDeflate.prototype.customHuffman (`dynamicHuffman` in the
rawdeflate variant), as `(value, bit count)` pairs; every write there has
`reverse = true`. Same structural-recursion reading of the index walk as
`fixedHuffmanWrites`. -/
def customHuffmanWrites (litLenCodes litLenLengths distCodes distLengths : List Nat) :
    List Nat → List (Nat × Nat)
  | [] => []
  | literal :: rest =>
    let w := (litLenCodes.getD literal 0, litLenLengths.getD literal 0)
    if literal > 256 then
      match rest with
      | lenExtra :: lenExtraBits :: dcode :: dExtra :: dExtraBits :: rest2 =>
        w :: (lenExtra, lenExtraBits) ::
          (distCodes.getD dcode 0, distLengths.getD dcode 0) ::
          (dExtra, dExtraBits) ::
          customHuffmanWrites litLenCodes litLenLengths distCodes distLengths rest2
      | _ => [w]
    else if literal = 256 then [w]
    else w :: customHuffmanWrites litLenCodes litLenLengths distCodes distLengths rest

/-- Zlib.RawDeflate.prototype.customHuffman: stream the writes (all with
`reverse = true`) and return the bit stream. -/
def customHuffman (litLenCodes litLenLengths distCodes distLengths : List Nat)
    (dataArray : List Nat) (stream : BitStream) : BitStream :=
  (customHuffmanWrites litLenCodes litLenLengths distCodes distLengths dataArray).foldl
    (fun s w => s.writeBits w.1 w.2 true) stream

/-- The tree-output loop of makeCustomHuffmanBlock: write each transmitted
code-length symbol, consuming the following entry as extra bits (2/3/7 bits
after 16/17/18) and throwing on a symbol above 18. Returned as the list of
`(value, bit count)` write pairs (all `reverse = true`). -/
def treeCodeWrites (codeCodes codeLengths : List Nat) :
    List Nat → Except String (List (Nat × Nat))
  | [] => .ok []
  | code :: rest =>
    let w := (codeCodes.getD code 0, codeLengths.getD code 0)
    if code ≥ 16 then
      match rest with
      | extra :: rest2 =>
        if code = 16 then (fun l => w :: (extra, 2) :: l) <$> treeCodeWrites codeCodes codeLengths rest2
        else if code = 17 then (fun l => w :: (extra, 3) :: l) <$> treeCodeWrites codeCodes codeLengths rest2
        else if code = 18 then (fun l => w :: (extra, 7) :: l) <$> treeCodeWrites codeCodes codeLengths rest2
        else .error "invalid code"
      | [] =>
        if code = 16 then .ok [w, (0, 2)]
        else if code = 17 then .ok [w, (0, 3)]
        else if code = 18 then .ok [w, (0, 7)]
        else .error "invalid code"
    else (fun l => w :: l) <$> treeCodeWrites codeCodes codeLengths rest

/-- The HLIT/HDIST/HCLEN trailing-zero scans
(`for (h = start; h > stop && lengths[h - 1] === 0; h--)`). The default 1
for an out-of-range read mirrors `undefined === 0` being false (never hit:
the scanned arrays have exactly `start` entries). -/
def hScanGo (lengths : List Nat) (stop : Nat) : Nat → Nat → Nat
  | 0, start => start
  | fuel + 1, start =>
    if start > stop ∧ lengths.getD (start - 1) 1 = 0 then hScanGo lengths stop fuel (start - 1)
    else start

/-- The scan decrements `start` at most `start` times. -/
def hScan (lengths : List Nat) (start stop : Nat) : Nat :=
  hScanGo lengths stop start start

/-- The HCLEN permutation order of the 19 code-length symbols. -/
def hclenOrder : List Nat :=
  [16, 17, 18, 0, 8, 7, 9, 6, 10, 5, 11, 4, 12, 3, 13, 2, 14, 1, 15]

/-- Zlib.Deflate.prototype.makeFixedHuffmanBlock: BFINAL + BTYPE=1 header
bits, then the fixed-Huffman-coded LZ77 token stream. (The RawDeflate
instance is created with compressionType FIXED, so the LZ77 run keeps no
frequency arrays.) -/
def makeFixedHuffmanBlock (blockArray : List Nat) (isFinalBlock : Bool) : List Nat :=
  let stream := (BitStream.empty.writeBits (if isFinalBlock then 1 else 0) 1 true).writeBits 1 2 true
  fixedHuffman (lz77 blockArray false) stream

/-- Zlib.Deflate.prototype.makeCustomHuffmanBlock: BFINAL + BTYPE=2 header,
dynamic table construction and serialization, token stream, and the final
extra write of the code for symbol 256 after customHuffman already wrote it
(see theorem for claim C10). `getLengths` returns the mutated frequency
array because the source calls `getLengths_(treeSymbols.freqs, 7)` and then
`getLengths_(treeSymbols.freqs)` on the array the first call mutated. -/
def makeCustomHuffmanBlock (blockArray : List Nat) (isFinalBlock : Bool) :
    Except String (List Nat) := do
  let stream := (BitStream.empty.writeBits (if isFinalBlock then 1 else 0) 1 true).writeBits 2 2 true
  let st := lz77Run blockArray true
  let data := st.tokens.flatMap Lz77Token.encode
  let r1 ← getLengths (st.freqsLitLen.map Int.ofNat) none
  let litLenLengths := r1.1
  let litLenCodes ← getCodesFromLengths litLenLengths
  let r2 ← getLengths (st.freqsDist.map Int.ofNat) none
  let distLengths := r2.1
  let distCodes ← getCodesFromLengths distLengths
  let hlit := hScan litLenLengths 286 257
  let hdist := hScan distLengths 30 1
  let ts := getTreeSymbols hlit litLenLengths hdist distLengths
  let r3 ← getLengths (ts.2.map Int.ofNat) (some 7)
  let treeLengths := r3.1
  let transLengths := (List.range 19).map (fun i => treeLengths.getD (hclenOrder.getD i 0) 0)
  let hclen := hScan transLengths 19 4
  let r4 ← getLengths r3.2 none
  let codeLengths := r4.1
  let codeCodes ← getCodesFromLengths codeLengths
  let stream := stream.writeBits (hlit - 257) 5 true
  let stream := stream.writeBits (hdist - 1) 5 true
  let stream := stream.writeBits (hclen - 4) 4 true
  let stream := (transLengths.take hclen).foldl (fun s t => s.writeBits t 3 true) stream
  let tws ← treeCodeWrites codeCodes codeLengths ts.1
  let stream := tws.foldl (fun s w => s.writeBits w.1 w.2 true) stream
  let stream := customHuffman litLenCodes litLenLengths distCodes distLengths data stream
  let stream := stream.writeBits (litLenCodes.getD 256 0) (litLenLengths.getD 256 0) true
  return stream.finish

/-- Zlib.Deflate.prototype.makeBlocks. -/
def makeBlocks (buffer : List Nat) (ct : CompressionType) : Except String (List Nat) :=
  match ct with
  | .NONE => .ok (noneBlocks buffer)
  | .FIXED => .ok (makeFixedHuffmanBlock buffer true)
  | .CUSTOM => makeCustomHuffmanBlock buffer true
  | .RESERVED => .error "invalid compression type"

/-- CINFO: `Math.LOG2E * Math.log(0x8000) - 8`. The double product
`1.4426950408889634 * 10.39720770839918` is exactly `15.0`, so the JS
`<< 4` sees 7. -/
def cinfo : Nat := 7

/-- CMF `(cinfo << 4) | 8` = 0x78. -/
def cmf : Nat := (cinfo <<< 4) ||| 8

/-- FLEVEL by compression type (the `switch` in compress). -/
def flevel (ct : CompressionType) : Except String Nat :=
  match ct with
  | .NONE => .ok 0
  | .FIXED => .ok 1
  | .CUSTOM => .ok 2
  | .RESERVED => .error "unsupported compression type"

/-- Zlib.Deflate.prototype.compress: CMF, FLG (with FCHECK fixup), the
DEFLATE blocks, and the big-endian Adler-32 trailer. -/
def compress (buffer : List Nat) (ct : CompressionType) : Except String (List Nat) := do
  let fl ← flevel ct
  let flg0 := (fl <<< 6) ||| (0 <<< 5)
  let fcheck := 31 - (cmf * 256 + flg0) % 31
  let flg := flg0 ||| fcheck
  let adler := convertNetworkByteOrder (adler32 buffer) 4
  let compressedData ← makeBlocks buffer ct
  return cmf :: flg :: (compressedData ++ adler)

/-- One byte-comparison step of the reference (specification-side) match
extension: both reads in bounds and equal. -/
def eqAt (data : List Nat) (q p i : Nat) : Bool :=
  decide (q + i < data.length) && decide (p + i < data.length) &&
    decide (data.getD (q + i) 0 = data.getD (p + i) 0)

/-- Count the in-bounds equal bytes at `q`/`p` from offset `i` on (fuel
bounded). -/
def matchRunGo (data : List Nat) (q p : Nat) : Nat → Nat → Nat
  | 0, i => i
  | fuel + 1, i => if eqAt data q p i then matchRunGo data q p fuel (i + 1) else i

/-- The unclamped match run of candidate `q` against position `p`: the
number of consecutive byte equalities (both sides in bounds). `eqAt` fails
at offset `data.length` at the latest, so this fuel is exact. -/
def matchRun (data : List Nat) (q p : Nat) : Nat :=
  matchRunGo data q p (data.length + 1) 0

/-- The naive per-byte match length described by the spec: extend while the
bytes agree, clamped to MAX_MATCH = 258. -/
def naiveMatchLength (data : List Nat) (q p : Nat) : Nat :=
  min (matchRun data q p) 258

/-- The naive reference search described by the spec: extend each candidate
byte-by-byte up to MAX_MATCH = 258, select the longest match, and break
length ties by the smallest distance. Returns `(length, distance)`. -/
def naiveSearch (data : List Nat) (p : Nat) (candidates : List Nat) : Nat × Nat :=
  candidates.foldl
    (fun best q =>
      let len := naiveMatchLength data q p
      let dist := p - q
      if len > best.1 ∨ (len = best.1 ∧ dist < best.2) then (len, dist) else best)
    (0, p + 1)

/-- The Kraft allocation of a code-length array at MaxCodeLength = 16:
`sum over l in 1..16 of count[l] * 2^(16 - l)`; a complete prefix code has
allocation exactly `2^16`. -/
def kraftSum (lengths : List Nat) : Nat :=
  ((List.range 16).map (fun i => lengths.count (i + 1) * 2 ^ (16 - (i + 1)))).sum

/-- The frequency table on which the length-limited Huffman builder
violates its limit: the first 19 Fibonacci numbers (claim C3). -/
def fib19 : List Int :=
  [1, 1, 2, 3, 5, 8, 13, 21, 34, 55, 89, 144, 233, 377, 610, 987, 1597, 2584, 4181]

/-- Input exhibiting the staged-search/naive-search mismatch (claim C5):
candidate 0 matches position 518 for 259 bytes, candidate 259 for exactly
258 bytes. -/
def ceData : List Nat :=
  List.replicate 258 0 ++ [2] ++ List.replicate 258 0 ++ [1] ++ List.replicate 258 0 ++ [2]

/-- Validity of a candidate `q` for position `p`: it precedes `p` and agrees
on the 3 bytes that formed the hash key. -/
def GoodCand (data : List Nat) (p q : Nat) : Prop :=
  q < p ∧ ∀ i < 3, data.getD (q + i) 0 = data.getD (p + i) 0

/-- The largest per-byte match run over a candidate list. -/
def maxRun (data : List Nat) (p : Nat) (L : List Nat) : Nat :=
  listMax (L.map (fun q => matchRun data q p))

/-- The 3-byte hash key the lz77 loop computes at position `q`:
`matchKey = (matchKey << 8) | (data[i] & 0xff)` folded over
`data.slice(q, q + 3)`. -/
def keyOf (data : List Nat) (q : Nat) : Nat :=
  ((data.drop q).take 3).foldl (fun k b => (k <<< 8) ||| (b % 256)) 0

/-- The invariant maintained on `this.matchTable`: every bucket holds
positions strictly before the current one, keyed by their own 3-byte hash,
in strictly increasing order. -/
def TableInv (data : List Nat) (pos : Nat) (t : Nat → List Nat) : Prop :=
  ∀ k, (∀ q ∈ t k, q < pos ∧ keyOf data q = k) ∧ (t k).Pairwise (· < ·)

/-- The C2 match-token property at one emitted `(position, length, distance)`. -/
def MatchOK (data : List Nat) (p l d : Nat) : Prop :=
  1 ≤ d ∧ d ≤ 32768 ∧ 3 ≤ l ∧ l ≤ 258 ∧ p + l ≤ data.length ∧
    ∀ i < l, data.getD (p - d + i) 0 = data.getD (p + i) 0

/-- The doubling accumulator of the starting-code loop: the value of `code`
after processing bit lengths `1 .. i`. -/
def codeAcc (count : Nat → Nat) : Nat → Nat
  | 0 => 0
  | i + 1 => (codeAcc count i + count (i + 1)) * 2

/-- The Kraft allocation of lengths `1 .. i` at width `i`:
`sum over l in 1..i of count l * 2^(i - l)`, recursively. -/
def partialKraft (count : Nat → Nat) : Nat → Nat
  | 0 => 0
  | i + 1 => 2 * partialKraft count i + count (i + 1)

/-- Canvas2PNG.Crc32Table_: the 256-entry reflected CRC-32 table, verbatim
from the source. -/
def Crc32Table : List Nat := [
  0, 1996959894, 3993919788, 2567524794, 124634137, 1886057615, 3915621685, 2657392035,
  249268274, 2044508324, 3772115230, 2547177864, 162941995, 2125561021, 3887607047, 2428444049,
  498536548, 1789927666, 4089016648, 2227061214, 450548861, 1843258603, 4107580753, 2211677639,
  325883990, 1684777152, 4251122042, 2321926636, 335633487, 1661365465, 4195302755, 2366115317,
  997073096, 1281953886, 3579855332, 2724688242, 1006888145, 1258607687, 3524101629, 2768942443,
  901097722, 1119000684, 3686517206, 2898065728, 853044451, 1172266101, 3705015759, 2882616665,
  651767980, 1373503546, 3369554304, 3218104598, 565507253, 1454621731, 3485111705, 3099436303,
  671266974, 1594198024, 3322730930, 2970347812, 795835527, 1483230225, 3244367275, 3060149565,
  1994146192, 31158534, 2563907772, 4023717930, 1907459465, 112637215, 2680153253, 3904427059,
  2013776290, 251722036, 2517215374, 3775830040, 2137656763, 141376813, 2439277719, 3865271297,
  1802195444, 476864866, 2238001368, 4066508878, 1812370925, 453092731, 2181625025, 4111451223,
  1706088902, 314042704, 2344532202, 4240017532, 1658658271, 366619977, 2362670323, 4224994405,
  1303535960, 984961486, 2747007092, 3569037538, 1256170817, 1037604311, 2765210733, 3554079995,
  1131014506, 879679996, 2909243462, 3663771856, 1141124467, 855842277, 2852801631, 3708648649,
  1342533948, 654459306, 3188396048, 3373015174, 1466479909, 544179635, 3110523913, 3462522015,
  1591671054, 702138776, 2966460450, 3352799412, 1504918807, 783551873, 3082640443, 3233442989,
  3988292384, 2596254646, 62317068, 1957810842, 3939845945, 2647816111, 81470997, 1943803523,
  3814918930, 2489596804, 225274430, 2053790376, 3826175755, 2466906013, 167816743, 2097651377,
  4027552580, 2265490386, 503444072, 1762050814, 4150417245, 2154129355, 426522225, 1852507879,
  4275313526, 2312317920, 282753626, 1742555852, 4189708143, 2394877945, 397917763, 1622183637,
  3604390888, 2714866558, 953729732, 1340076626, 3518719985, 2797360999, 1068828381, 1219638859,
  3624741850, 2936675148, 906185462, 1090812512, 3747672003, 2825379669, 829329135, 1181335161,
  3412177804, 3160834842, 628085408, 1382605366, 3423369109, 3138078467, 570562233, 1426400815,
  3317316542, 2998733608, 733239954, 1555261956, 3268935591, 3050360625, 752459403, 1541320221,
  2607071920, 3965973030, 1969922972, 40735498, 2617837225, 3943577151, 1913087877, 83908371,
  2512341634, 3803740692, 2075208622, 213261112, 2463272603, 3855990285, 2094854071, 198958881,
  2262029012, 4057260610, 1759359992, 534414190, 2176718541, 4139329115, 1873836001, 414664567,
  2282248934, 4279200368, 1711684554, 285281116, 2405801727, 4167216745, 1634467795, 376229701,
  2685067896, 3608007406, 1308918612, 956543938, 2808555105, 3495958263, 1231636301, 1047427035,
  2932959818, 3654703836, 1088359270, 936918000, 2847714899, 3736837829, 1202900863, 817233897,
  3183342108, 3401237130, 1404277552, 615818150, 3134207493, 3453421203, 1423857449, 601450431,
  3009837614, 3294710456, 1567103746, 711928724, 3020668471, 3272380065, 1510334235, 755167117]

/-- Canvas2PNG.prototype.updateCRC32_:
`octet = (crc ^ byte) & 0xff; crc = (crc >>> 8) ^ Crc32Table_[octet]`.
`crc` stays below 2^32 throughout, so `>>> 8` is `/ 256` and `& 0xff` is
`% 256`. -/
def updateCRC32 (data : List Nat) (crc : Nat) : Nat :=
  data.foldl (fun crc b => (crc / 256) ^^^ Crc32Table.getD ((crc ^^^ b) % 256) 0) crc

/-- Canvas2PNG.prototype.getCRC32_: seed 0xFFFFFFFF, XOR-invert at finish.
(The JS `^ 0xffffffff` views the result as a signed 32-bit number; every
consumer immediately re-expands it to the bytes of the unsigned value we
return.) -/
def getCRC32 (data : List Nat) : Nat :=
  updateCRC32 data 4294967295 ^^^ 4294967295

/-- Modelled from the spec: `Zlib.CRC32.calc(data, pos, length)` - the goog
`Zlib.CRC32` module is not part of this repository - computes the CRC-32
described by the spec (the same table-driven, 0xFFFFFFFF-seeded,
XOR-inverted CRC as Canvas2PNG.getCRC32_, which is in the source) over the
`length` bytes of `data` starting at index `pos`. -/
def CRC32calc (data : List Nat) (pos length : Nat) : Nat :=
  getCRC32 ((data.drop pos).take length)

/-- CanvasTool.PngEncoder.prototype.makeChunk_ (the in-place variant): the
caller hands a buffer with 4 (length) + 4 (type) + payload + 4 (CRC) slots;
the length, type, and CRC fields are written in place and the CRC is
computed over the bytes from index 4 to 4 + (4 + length), i.e. the type and
the payload. JS `(x >> 24) & 0xff` and friends agree with `/ 2^k % 256` for
the array lengths and 32-bit CRCs that occur. -/
def makeChunk (ctype data : List Nat) : List Nat :=
  let length := data.length - 12
  let d := jsSet data 0 (length / 16777216 % 256)
  let d := jsSet d 1 (length / 65536 % 256)
  let d := jsSet d 2 (length / 256 % 256)
  let d := jsSet d 3 (length % 256)
  let d := jsSet d 4 (ctype.getD 0 0)
  let d := jsSet d 5 (ctype.getD 1 0)
  let d := jsSet d 6 (ctype.getD 2 0)
  let d := jsSet d 7 (ctype.getD 3 0)
  let crc := CRC32calc d 4 (4 + length)
  let p := d.length - 4
  let d := jsSet d p (crc / 16777216 % 256)
  let d := jsSet d (p + 1) (crc / 65536 % 256)
  let d := jsSet d (p + 2) (crc / 256 % 256)
  let d := jsSet d (p + 3) (crc % 256)
  d

/-- CanvasTool.PngEncoder.Adam7Table_ as `(xStart, yStart, xStep, yStep)`. -/
def adam7Table : List (Nat × Nat × Nat × Nat) :=
  [(0, 0, 8, 8), (4, 0, 8, 8), (0, 4, 4, 8), (2, 0, 4, 4), (0, 2, 2, 4), (1, 0, 2, 2),
    (0, 1, 1, 2)]

/-- One pass of the interlace output (CanvasTool.PngEncoder.Pass_). -/
structure Adam7Pass where
  width : Nat
  height : Nat
  pixelArray : List (List Nat)
deriving DecidableEq

/-- The innermost `for (passx = config.xStart; passx < 8; passx += config.xStep)`
loop of interlaceAdam7_. The state is `(linex, liney, pass.pixelArray)`. A
pixel entry is itself an array, so JS `if (pixel)` holds exactly when the
flat index is in bounds. 8 fuel units dominate the ≤ 8 iterations. -/
def adam7PassX (data : List (List Nat)) (width xStart xStep yStart yStep
    blockx blocky passy : Nat) :
    Nat → Nat → Nat × Nat × List (List Nat) → Nat × Nat × List (List Nat)
  | 0, _, st => st
  | fuel + 1, passx, st =>
    if passx < 8 then
      if (blockx + passx) + (blocky + passy) * width < data.length then
        adam7PassX data width xStart xStep yStart yStep blockx blocky passy fuel
          (passx + xStep)
          ((blockx + passx - xStart) / xStep, (blocky + passy - yStart) / yStep,
            st.2.2 ++ [data.getD ((blockx + passx) + (blocky + passy) * width) []])
      else
        adam7PassX data width xStart xStep yStart yStep blockx blocky passy fuel
          (passx + xStep) st
    else st

/-- `for (blockx = 0; blockx < width; blockx += 8)`; `width / 8 + 1` fuel
units dominate the iteration count. -/
def adam7BlockX (data : List (List Nat)) (width xStart xStep yStart yStep
    blocky passy : Nat) :
    Nat → Nat → Nat × Nat × List (List Nat) → Nat × Nat × List (List Nat)
  | 0, _, st => st
  | fuel + 1, blockx, st =>
    if blockx < width then
      adam7BlockX data width xStart xStep yStart yStep blocky passy fuel (blockx + 8)
        (adam7PassX data width xStart xStep yStart yStep blockx blocky passy 8 xStart st)
    else st

/-- `for (passy = config.yStart; passy < 8; passy += config.yStep)`. -/
def adam7PassY (data : List (List Nat)) (width xStart xStep yStart yStep
    blocky : Nat) :
    Nat → Nat → Nat × Nat × List (List Nat) → Nat × Nat × List (List Nat)
  | 0, _, st => st
  | fuel + 1, passy, st =>
    if passy < 8 then
      adam7PassY data width xStart xStep yStart yStep blocky fuel (passy + yStep)
        (adam7BlockX data width xStart xStep yStart yStep blocky passy
          (width / 8 + 1) 0 st)
    else st

/-- `for (blocky = 0; blocky < height; blocky += 8)`. -/
def adam7BlockY (data : List (List Nat)) (width height xStart xStep yStart yStep : Nat) :
    Nat → Nat → Nat × Nat × List (List Nat) → Nat × Nat × List (List Nat)
  | 0, _, st => st
  | fuel + 1, blocky, st =>
    if blocky < height then
      adam7BlockY data width height xStart xStep yStart yStep fuel (blocky + 8)
        (adam7PassY data width xStart xStep yStart yStep blocky 8 yStart st)
    else st

/-- CanvasTool.PngEncoder.prototype.interlaceAdam7_: seven passes, each run
with fresh `linex = liney = 0` and an empty pixel list, recording
`linex + 1` / `liney + 1` as the pass dimensions afterwards. The source
computes `width = pixelArray.length / height`; the encoder always passes a
raster of exactly `width * height` pixel entries, making the division
exact. -/
def interlaceAdam7 (data : List (List Nat)) (height : Nat) : List Adam7Pass :=
  let width := data.length / height
  adam7Table.map (fun cfg =>
    let r := adam7BlockY data width height cfg.1 cfg.2.2.1 cfg.2.1 cfg.2.2.2
      (height / 8 + 1) 0 (0, 0, [])
    { width := r.1 + 1, height := r.2.1 + 1, pixelArray := r.2.2 })

/-- Specification-side selection: the columns `xStart, xStart + xStep, ...`
below `W`. -/
def adam7SelectedCols (W xStart xStep : Nat) : List Nat :=
  (List.range W).filter (fun x => decide (xStart ≤ x) && decide ((x - xStart) % xStep = 0))

/-- Specification-side Adam7 pass contents: the selected pixels in row-major
order. -/
def adam7Selected (data : List (List Nat)) (W H xStart yStart xStep yStep : Nat) :
    List (List Nat) :=
  (adam7SelectedCols H yStart yStep).flatMap
    (fun y => (adam7SelectedCols W xStart xStep).map (fun x => data.getD (y * W + x) []))

theorem pairSwap_length (l : HeapBuf) (i j : Nat) :
    (pairSwap l i j).length = l.length := by
  simp [pairSwap]

theorem siftUpGo_length (fuel : Nat) (buf : HeapBuf) (current : Nat) :
    (siftUpGo buf fuel current).length = buf.length := by
  induction fuel generalizing buf current with
  | zero => rfl
  | succ fuel ih =>
    rw [siftUpGo]
    split
    · dsimp only
      split
      · rw [ih, pairSwap_length]
      · rfl
    · rfl

theorem siftUp_length (buf : HeapBuf) (current : Nat) :
    (siftUp buf current).length = buf.length :=
  siftUpGo_length current buf current

theorem heapPush_length (buf : HeapBuf) (index : Nat) (value : Int) :
    (heapPush buf index value).length = buf.length + 1 := by
  simp [heapPush, siftUp_length]

theorem siftDownGo_length (fuel : Nat) (buf : HeapBuf) (parent : Nat) :
    (siftDownGo fuel buf parent).length = buf.length := by
  induction fuel generalizing buf parent with
  | zero => rfl
  | succ fuel ih =>
    rw [siftDownGo]
    split
    · split
      · split
        · rw [ih, pairSwap_length]
        · rfl
      · split
        · rw [ih, pairSwap_length]
        · rfl
    · rfl

theorem siftDown_length (buf : HeapBuf) (parent : Nat) :
    (siftDown buf parent).length = buf.length :=
  siftDownGo_length buf.length buf parent

theorem heapPop_rest_length (buf : HeapBuf) :
    (heapPop buf).2.length = buf.length - 1 := by
  simp [heapPop, siftDown_length]

/-- C1. The spec claims a DEFLATE round trip for every byte sequence and
every block type. The code violates it: for the empty input with the stored
(NONE) type, `makeBlocks` emits no block at all (its slicing loop never
runs), so the zlib stream is `78 01` followed immediately by the Adler-32
trailer, with an empty DEFLATE body between them - no conforming RFC 1951
inflater can decode the empty byte sequence from an empty bitstream, which
lacks the mandatory final block header. This theorem evaluates the code at
the failing input. -/
theorem claim_C1_roundtrip_fails_on_empty_stored :
    (makeBlocks [] CompressionType.NONE).toOption = some [] ∧
    (compress [] CompressionType.NONE).toOption = some [0x78, 0x01, 0x00, 0x00, 0x00, 0x01] := by
  decide

/-- C7. The spec claims `deflate("", Stored)` yields the 11 bytes
`78 01 01 00 00 FF FF 00 00 00 01` (one final stored block of length 0).
The code instead returns the 6 bytes `78 01 00 00 00 01`: the stored-block
loop never runs on an empty buffer, so no block - in particular no final
empty stored block `01 00 00 FF FF` - is emitted. -/
theorem claim_C7_empty_stored_bytes :
    (compress [] CompressionType.NONE).toOption ≠
      some [0x78, 0x01, 0x01, 0x00, 0x00, 0xFF, 0xFF, 0x00, 0x00, 0x00, 0x01] ∧
    (compress [] CompressionType.NONE).toOption.map List.length = some 6 := by
  decide

/-- C3. The spec claims every code length produced under a supplied limit
(7 or 15) stays within the limit thanks to the frequency adjustment. In the
code, `totalFreq` is reset to 0 and never re-summed before computing
`adjust = ceil((totalFreq - smallestFreq * maxProb) / (maxProb - nActive))`,
so whenever the smallest frequency is 1 the adjustment is 0 (truncation of a
small negative quotient) and the tree is built on the raw frequencies. On
the first 19 Fibonacci numbers with limit 7 the returned lengths run up to
18 > 7. -/
theorem claim_C3_limit_violated_on_fib19 :
    (getLengths fib19 (some 7)).toOption.map (fun r => r.1) =
      some [18, 18, 17, 16, 15, 14, 13, 12, 11, 10, 9, 8, 7, 6, 5, 4, 3, 2, 1] ∧
    (getLengths fib19 (some 7)).toOption.map (fun r => r.1.all (fun l => l ≤ 7)) =
      some false := by
  decide

/-- C4 counterexample. The claim says getCodesFromLengths_ raises an error
exactly when the Kraft equality `sum count[l] * 2^(16-l) = 2^16` fails, with
"undercommitted" on any shortfall. The length array `[1]` (a single code of
length 1) has Kraft allocation `2^15 ≠ 2^16`, yet the function raises
nothing and returns the code array `[0]`: its final check only rejects
`code < 2^16` for the doubled accumulator `2 * K`, i.e. allocations below
half. -/
theorem claim_C4_counterexample :
    (getCodesFromLengths [1]).toOption = some [0] ∧ kraftSum [1] = 2 ^ 15 ∧
    kraftSum [1] ≠ 2 ^ 16 := by
  decide

theorem matchRunGo_ge (data : List Nat) (q p : Nat) (fuel i : Nat) :
    i ≤ matchRunGo data q p fuel i := by
  induction fuel generalizing i with
  | zero => exact Nat.le_refl i
  | succ fuel ih =>
    rw [matchRunGo]
    split
    · exact Nat.le_trans (Nat.le_succ i) (ih (i + 1))
    · exact Nat.le_refl i

theorem matchRunGo_le (data : List Nat) (q p : Nat) (fuel i : Nat) :
    matchRunGo data q p fuel i ≤ i + fuel := by
  induction fuel generalizing i with
  | zero => exact Nat.le_refl i
  | succ fuel ih =>
    rw [matchRunGo]
    split
    · exact Nat.le_trans (ih (i + 1)) (by omega)
    · omega

theorem matchRunGo_eqAt (data : List Nat) (q p : Nat) (fuel i j : Nat)
    (hij : i ≤ j) (hj : j < matchRunGo data q p fuel i) : eqAt data q p j = true := by
  induction fuel generalizing i with
  | zero => rw [matchRunGo] at hj; omega
  | succ fuel ih =>
    rw [matchRunGo] at hj
    by_cases he : eqAt data q p i = true
    · rw [if_pos he] at hj
      rcases Nat.eq_or_lt_of_le hij with rfl | hlt
      · exact he
      · exact ih (i + 1) hlt hj
    · rw [if_neg he] at hj
      omega

theorem matchRunGo_stop (data : List Nat) (q p : Nat) (fuel i : Nat)
    (h : matchRunGo data q p fuel i < i + fuel) :
    eqAt data q p (matchRunGo data q p fuel i) = false := by
  induction fuel generalizing i with
  | zero => rw [matchRunGo] at h; omega
  | succ fuel ih =>
    rw [matchRunGo] at h ⊢
    by_cases he : eqAt data q p i = true
    · rw [if_pos he] at h ⊢
      exact ih (i + 1) (by omega)
    · rw [if_neg he] at h ⊢
      exact Bool.not_eq_true _ |>.mp he

theorem eqAt_length_false (data : List Nat) (q p : Nat) :
    eqAt data q p data.length = false := by
  simp only [eqAt]
  have : ¬ (q + data.length < data.length) := by omega
  simp [this]

theorem matchRun_le_length (data : List Nat) (q p : Nat) :
    matchRun data q p ≤ data.length := by
  by_contra hgt
  have hgt2 : data.length < matchRunGo data q p (data.length + 1) 0 := by
    simpa [matchRun] using Nat.lt_of_not_le hgt
  have : eqAt data q p data.length = true :=
    matchRunGo_eqAt data q p (data.length + 1) 0 data.length (Nat.zero_le _) hgt2
  rw [eqAt_length_false] at this
  cases this

theorem matchRun_eqAt (data : List Nat) (q p i : Nat) (hi : i < matchRun data q p) :
    eqAt data q p i = true :=
  matchRunGo_eqAt data q p (data.length + 1) 0 i (Nat.zero_le _) (by simpa [matchRun] using hi)

theorem matchRun_stop (data : List Nat) (q p : Nat) :
    eqAt data q p (matchRun data q p) = false := by
  have h := matchRun_le_length data q p
  have h2 : matchRunGo data q p (data.length + 1) 0 < 0 + (data.length + 1) := by
    simp only [matchRun] at h
    omega
  exact matchRunGo_stop data q p (data.length + 1) 0 h2

theorem le_matchRun_iff (data : List Nat) (q p b : Nat) :
    b ≤ matchRun data q p ↔ ∀ i < b, eqAt data q p i = true := by
  constructor
  · intro h i hi
    exact matchRun_eqAt data q p i (by omega)
  · intro h
    by_contra hlt
    have := h (matchRun data q p) (Nat.lt_of_not_le (fun hb => hlt hb))
    rw [matchRun_stop] at this
    cases this

theorem eqAt_bounds (data : List Nat) (q p i : Nat) (h : eqAt data q p i = true) :
    q + i < data.length ∧ p + i < data.length ∧
      data.getD (q + i) 0 = data.getD (p + i) 0 := by
  simp only [eqAt, Bool.and_eq_true, decide_eq_true_eq] at h
  exact ⟨h.1.1, h.1.2, h.2⟩

theorem eqAt_of (data : List Nat) (q p i : Nat) (h1 : q + i < data.length)
    (h2 : p + i < data.length) (h3 : data.getD (q + i) 0 = data.getD (p + i) 0) :
    eqAt data q p i = true := by
  simp only [eqAt, Bool.and_eq_true, decide_eq_true_eq]
  exact ⟨⟨h1, h2⟩, h3⟩

theorem jsEq_char (data : List Nat) (a b : Nat) :
    jsEq data a b = true ↔
      ((a < data.length ∧ b < data.length ∧ data.getD a 0 = data.getD b 0) ∨
        (data.length ≤ a ∧ data.length ≤ b)) := by
  simp only [jsEq, beq_iff_eq]
  by_cases ha : a < data.length <;> by_cases hb : b < data.length
  · rw [List.getD_eq_getElem?_getD, List.getD_eq_getElem?_getD]
    constructor
    · intro h
      left
      refine ⟨ha, hb, ?_⟩
      rw [List.get?_eq_getElem?, List.get?_eq_getElem?] at h
      rw [h]
    · rintro (⟨_, _, h⟩ | ⟨h, _⟩)
      · rw [List.get?_eq_getElem?, List.get?_eq_getElem?]
        rw [List.getElem?_eq_getElem ha, List.getElem?_eq_getElem hb] at h ⊢
        simp only [Option.getD_some] at h
        simp [h]
      · omega
  · constructor
    · intro h
      rw [List.get?_eq_getElem?, List.get?_eq_getElem?] at h
      rw [List.getElem?_eq_getElem ha, List.getElem?_eq_none (by omega)] at h
      cases h
    · rintro (⟨_, hb2, _⟩ | ⟨ha2, _⟩) <;> omega
  · constructor
    · intro h
      rw [List.get?_eq_getElem?, List.get?_eq_getElem?] at h
      rw [List.getElem?_eq_getElem hb, List.getElem?_eq_none (by omega)] at h
      cases h
    · rintro (⟨ha2, _, _⟩ | ⟨_, hb2⟩) <;> omega
  · constructor
    · intro _
      right
      omega
    · intro _
      rw [List.get?_eq_getElem?, List.get?_eq_getElem?,
        List.getElem?_eq_none (by omega), List.getElem?_eq_none (by omega)]

theorem le_foldl_max_init (l : List Nat) (a : Nat) : a ≤ l.foldl max a := by
  induction l generalizing a with
  | nil => exact Nat.le_refl a
  | cons x xs ih => exact Nat.le_trans (Nat.le_max_left a x) (ih (max a x))

theorem le_foldl_max (l : List Nat) (a x : Nat) (hx : x ∈ l) : x ≤ l.foldl max a := by
  induction l generalizing a with
  | nil => cases hx
  | cons y ys ih =>
    rcases List.mem_cons.mp hx with rfl | h
    · exact Nat.le_trans (Nat.le_max_right a x) (le_foldl_max_init ys (max a x))
    · exact ih (max a y) h

theorem foldl_max_mem (l : List Nat) (a : Nat) : l.foldl max a ∈ l ∨ l.foldl max a = a := by
  induction l generalizing a with
  | nil => right; rfl
  | cons x xs ih =>
    rcases ih (max a x) with h | h
    · left; exact List.mem_cons_of_mem _ h
    · rcases max_choice a x with hm | hm <;> rw [List.foldl_cons, h, hm]
      · right; rfl
      · left; exact List.mem_cons_self _ _

theorem listMax_mem (l : List Nat) (h : l ≠ []) : listMax l ∈ l := by
  rcases foldl_max_mem l 0 with hm | hm
  · exact hm
  · match l, h with
    | x :: xs, _ =>
      have hx : x ≤ listMax (x :: xs) := le_foldl_max _ 0 x (List.mem_cons_self _ _)
      simp only [listMax] at hx hm ⊢
      rw [hm] at hx ⊢
      have hx0 : x = 0 := Nat.le_zero.mp hx
      rw [← hx0]
      exact List.mem_cons_self _ _

theorem le_listMax (l : List Nat) (x : Nat) (hx : x ∈ l) : x ≤ listMax l :=
  le_foldl_max l 0 x hx

theorem listMax_le (l : List Nat) (c : Nat) (h : ∀ x ∈ l, x ≤ c) : listMax l ≤ c := by
  rcases foldl_max_mem l 0 with hm | hm
  · exact h _ hm
  · simp only [listMax, hm]
    exact Nat.zero_le c

theorem matchRun_ge3 (data : List Nat) (q p : Nat) (hqp : q < p)
    (hp3 : p + 3 ≤ data.length)
    (hpre : ∀ i < 3, data.getD (q + i) 0 = data.getD (p + i) 0) :
    3 ≤ matchRun data q p := by
  rw [le_matchRun_iff]
  intro i hi
  exact eqAt_of _ _ _ _ (by omega) (by omega) (hpre i hi)

theorem jsEqRange_iff (data : List Nat) (q p b : Nat) (hqp : q < p)
    (hp3 : p + 3 ≤ data.length)
    (hpre : ∀ i < 3, data.getD (q + i) 0 = data.getD (p + i) 0) :
    (∀ i, 3 ≤ i → i < b → jsEq data (q + i) (p + i) = true) ↔
      b ≤ matchRun data q p := by
  constructor
  · intro h
    by_contra hlt
    have h3 : 3 ≤ matchRun data q p := matchRun_ge3 data q p hqp hp3 hpre
    have hrb : matchRun data q p < b := Nat.lt_of_not_le hlt
    have hjs := h (matchRun data q p) h3 hrb
    rw [jsEq_char] at hjs
    have hstop := matchRun_stop data q p
    rcases hjs with ⟨h1, h2, h3v⟩ | ⟨h1, h2⟩
    · have := eqAt_of data q p (matchRun data q p) h1 h2 h3v
      rw [hstop] at this
      cases this
    · have hprev : eqAt data q p (matchRun data q p - 1) = true :=
        matchRun_eqAt _ _ _ _ (by omega)
      have hb := eqAt_bounds _ _ _ _ hprev
      omega
  · intro hb i h3i hib
    have he := matchRun_eqAt data q p i (by omega)
    have hbounds := eqAt_bounds _ _ _ _ he
    rw [jsEq_char]
    left
    exact ⟨hbounds.1, hbounds.2.1, hbounds.2.2⟩

theorem blockEqual_iff (data : List Nat) (q p m : Nat) (hqp : q < p)
    (hp3 : p + 3 ≤ data.length)
    (hpre : ∀ i < 3, data.getD (q + i) 0 = data.getD (p + i) 0)
    (hm : m ≤ matchRun data q p) (h3m : 3 ≤ m) :
    (blockEqual data q p m = true ↔ m + 8 ≤ matchRun data q p) := by
  rw [blockEqual, List.all_eq_true]
  constructor
  · intro h
    rw [← jsEqRange_iff data q p (m + 8) hqp hp3 hpre]
    intro i h3i hib
    by_cases him : i < m
    · have he := matchRun_eqAt data q p i (by omega)
      have hbounds := eqAt_bounds _ _ _ _ he
      rw [jsEq_char]
      left
      exact ⟨hbounds.1, hbounds.2.1, hbounds.2.2⟩
    · have hm8 : i - m < 8 := by omega
      have := h (i - m) (List.mem_range.mpr hm8)
      have harith1 : q + m + (i - m) = q + i := by omega
      have harith2 : p + m + (i - m) = p + i := by omega
      rwa [harith1, harith2] at this
  · intro h i hi
    have hi8 : i < 8 := List.mem_range.mp hi
    rw [← jsEqRange_iff data q p (m + 8) hqp hp3 hpre] at h
    have := h (m + i) (by omega) (by omega)
    have harith1 : q + (m + i) = q + m + i := by omega
    have harith2 : p + (m + i) = p + m + i := by omega
    rwa [harith1, harith2] at this

theorem jsEq_step_iff (data : List Nat) (q p len : Nat) (hqp : q < p)
    (hp3 : p + 3 ≤ data.length)
    (hpre : ∀ i < 3, data.getD (q + i) 0 = data.getD (p + i) 0)
    (hlen : len ≤ matchRun data q p) (h3 : 3 ≤ len) :
    (jsEq data (q + len) (p + len) = true ↔ len + 1 ≤ matchRun data q p) := by
  constructor
  · intro h
    rw [← jsEqRange_iff data q p (len + 1) hqp hp3 hpre]
    intro i h3i hib
    by_cases him : i < len
    · have he := matchRun_eqAt data q p i (by omega)
      have hbounds := eqAt_bounds _ _ _ _ he
      rw [jsEq_char]
      left
      exact ⟨hbounds.1, hbounds.2.1, hbounds.2.2⟩
    · have : i = len := by omega
      rwa [this]
  · intro h
    have he := matchRun_eqAt data q p len (by omega)
    have hbounds := eqAt_bounds _ _ _ _ he
    rw [jsEq_char]
    left
    exact ⟨hbounds.1, hbounds.2.1, hbounds.2.2⟩

theorem filter_blockEqual_eq (data : List Nat) (p : Nat) (L0 : List Nat) (m : Nat)
    (hgood : ∀ q ∈ L0, GoodCand data p q) (hp3 : p + 3 ≤ data.length) (h3m : 3 ≤ m) :
    (L0.filter (fun q => decide (m ≤ matchRun data q p))).filter
        (fun q => blockEqual data q p m)
      = L0.filter (fun q => decide (m + 8 ≤ matchRun data q p)) := by
  rw [List.filter_filter]
  apply List.filter_congr
  intro q hq
  rcases hgood q hq with ⟨hqp, hpre⟩
  by_cases hm : m ≤ matchRun data q p
  · have hb := blockEqual_iff data q p m hqp hp3 hpre hm h3m
    by_cases h8 : m + 8 ≤ matchRun data q p
    · rw [hb.mpr h8]
      simp [hm, h8]
    · have hbe : blockEqual data q p m = false := by
        rcases Bool.eq_false_or_eq_true (blockEqual data q p m) with ht | hf
        · exact absurd (hb.mp ht) h8
        · exact hf
      rw [hbe]
      simp [h8]
  · have h8 : ¬ (m + 8 ≤ matchRun data q p) := by omega
    simp [hm, h8]

theorem strideLoopGo_spec (data : List Nat) (p : Nat) (L0 : List Nat)
    (hgood : ∀ q ∈ L0, GoodCand data p q) (hp3 : p + 3 ≤ data.length) :
    ∀ fuel m L, 3 ≤ m → m % 8 = 3 → m ≤ 259 → 266 ≤ m + 8 * fuel →
    L = L0.filter (fun q => decide (m ≤ matchRun data q p)) → L ≠ [] →
    ((3 ≤ (strideLoopGo data p fuel L m).2 ∧ (strideLoopGo data p fuel L m).2 % 8 = 3 ∧
        (strideLoopGo data p fuel L m).2 ≤ 259) ∧
      (strideLoopGo data p fuel L m).1 =
        L0.filter (fun q => decide ((strideLoopGo data p fuel L m).2 ≤ matchRun data q p)) ∧
      (strideLoopGo data p fuel L m).1 ≠ [] ∧
      ((strideLoopGo data p fuel L m).2 = 259 ∨
        ((strideLoopGo data p fuel L m).2 ≤ 251 ∧
          L0.filter (fun q =>
            decide ((strideLoopGo data p fuel L m).2 + 8 ≤ matchRun data q p)) = []))) := by
  intro fuel
  induction fuel with
  | zero => intro m L h3 h8 h259 hfuel hL hne; omega
  | succ fuel ih =>
    intro m L h3 h8 h259 hfuel hL hne
    rw [strideLoopGo]
    by_cases hlt : m < 258
    · rw [if_pos hlt]
      have hsur : L.filter (fun q => blockEqual data q p m) =
          L0.filter (fun q => decide (m + 8 ≤ matchRun data q p)) := by
        rw [hL]
        exact filter_blockEqual_eq data p L0 m hgood hp3 h3
      by_cases hemp : (L.filter (fun q => blockEqual data q p m)).isEmpty
      · rw [if_pos hemp]
        have hm251 : m ≤ 251 := by omega
        refine ⟨⟨h3, h8, h259⟩, hL, hne, Or.inr ⟨hm251, ?_⟩⟩
        rw [← hsur]
        exact List.isEmpty_iff.mp hemp
      · rw [if_neg hemp]
        have hm251 : m ≤ 251 := by omega
        have hnemp : L.filter (fun q => blockEqual data q p m) ≠ [] := by
          intro hcon
          rw [hcon] at hemp
          exact hemp rfl
        exact ih (m + 8) _ (by omega) (by omega) (by omega) (by omega) hsur hnemp
    · rw [if_neg hlt]
      have hm259 : m = 259 := by omega
      exact ⟨⟨h3, h8, h259⟩, hL, hne, Or.inl hm259⟩

theorem filter_jsEqStep_eq (data : List Nat) (p : Nat) (L0 : List Nat) (len : Nat)
    (hgood : ∀ q ∈ L0, GoodCand data p q) (hp3 : p + 3 ≤ data.length) (h3 : 3 ≤ len) :
    (L0.filter (fun q => decide (len ≤ matchRun data q p))).filter
        (fun q => jsEq data (q + len) (p + len))
      = L0.filter (fun q => decide (len + 1 ≤ matchRun data q p)) := by
  rw [List.filter_filter]
  apply List.filter_congr
  intro q hq
  rcases hgood q hq with ⟨hqp, hpre⟩
  by_cases hm : len ≤ matchRun data q p
  · have hb := jsEq_step_iff data q p len hqp hp3 hpre hm h3
    by_cases h1 : len + 1 ≤ matchRun data q p
    · rw [hb.mpr h1]
      simp [hm, h1]
    · have hbe : jsEq data (q + len) (p + len) = false := by
        rcases Bool.eq_false_or_eq_true (jsEq data (q + len) (p + len)) with ht | hf
        · exact absurd (hb.mp ht) h1
        · exact hf
      rw [hbe]
      simp [h1]
  · have h1 : ¬ (len + 1 ≤ matchRun data q p) := by omega
    simp [hm, h1]

theorem refineLoopGo_spec (data : List Nat) (p : Nat) (L0 : List Nat)
    (hgood : ∀ q ∈ L0, GoodCand data p q) (hp3 : p + 3 ≤ data.length) :
    ∀ fuel len L, 3 ≤ len →
    L = L0.filter (fun q => decide (len ≤ matchRun data q p)) → L ≠ [] →
    (len ≤ (refineLoopGo data p fuel L len).2 ∧
      (refineLoopGo data p fuel L len).2 ≤ len + fuel ∧
      (refineLoopGo data p fuel L len).2 ≤ max len 258 ∧
      (refineLoopGo data p fuel L len).1 =
        L0.filter (fun q => decide ((refineLoopGo data p fuel L len).2 ≤ matchRun data q p)) ∧
      (refineLoopGo data p fuel L len).1 ≠ [] ∧
      ((refineLoopGo data p fuel L len).2 = len + fuel ∨
        258 ≤ (refineLoopGo data p fuel L len).2 ∨
        L0.filter (fun q =>
          decide ((refineLoopGo data p fuel L len).2 + 1 ≤ matchRun data q p)) = [])) := by
  intro fuel
  induction fuel with
  | zero =>
    intro len L h3 hL hne
    exact ⟨Nat.le_refl _, Nat.le_refl _, Nat.le_max_left _ _, hL, hne, Or.inl rfl⟩
  | succ fuel ih =>
    intro len L h3 hL hne
    rw [refineLoopGo]
    by_cases hlt : len < 258
    · rw [if_pos hlt]
      have hsur : L.filter (fun q => jsEq data (q + len) (p + len)) =
          L0.filter (fun q => decide (len + 1 ≤ matchRun data q p)) := by
        rw [hL]
        exact filter_jsEqStep_eq data p L0 len hgood hp3 h3
      by_cases hemp : (L.filter (fun q => jsEq data (q + len) (p + len))).isEmpty
      · rw [if_pos hemp]
        refine ⟨Nat.le_refl _, by omega, Nat.le_max_left _ _, hL, hne, Or.inr (Or.inr ?_)⟩
        rw [← hsur]
        exact List.isEmpty_iff.mp hemp
      · rw [if_neg hemp]
        have hnemp : L.filter (fun q => jsEq data (q + len) (p + len)) ≠ [] := by
          intro hcon
          rw [hcon] at hemp
          exact hemp rfl
        have hrec := ih (len + 1) _ (by omega) hsur hnemp
        refine ⟨by omega, by omega, ?_, hrec.2.2.2.1, hrec.2.2.2.2.1, ?_⟩
        · have := hrec.2.2.1
          omega
        · rcases hrec.2.2.2.2.2 with he | he | he
          · exact Or.inl (by omega)
          · exact Or.inr (Or.inl he)
          · exact Or.inr (Or.inr he)
    · rw [if_neg hlt]
      exact ⟨Nat.le_refl _, by omega, Nat.le_max_left _ _, hL, hne, Or.inr (Or.inl (by omega))⟩

theorem maxRun_ge (data : List Nat) (p : Nat) (L : List Nat) (q : Nat) (hq : q ∈ L) :
    matchRun data q p ≤ maxRun data p L :=
  le_listMax _ _ (List.mem_map.mpr ⟨q, hq, rfl⟩)

theorem maxRun_le (data : List Nat) (p : Nat) (L : List Nat) (c : Nat)
    (h : ∀ q ∈ L, matchRun data q p ≤ c) : maxRun data p L ≤ c := by
  apply listMax_le
  intro x hx
  rcases List.mem_map.mp hx with ⟨q, hq, rfl⟩
  exact h q hq

theorem maxRun_of_filter_ne_nil (data : List Nat) (p : Nat) (L : List Nat) (b : Nat)
    (h : L.filter (fun q => decide (b ≤ matchRun data q p)) ≠ []) :
    b ≤ maxRun data p L := by
  match hm : L.filter (fun q => decide (b ≤ matchRun data q p)), h with
  | q :: _, _ =>
    have hq : q ∈ L.filter (fun q => decide (b ≤ matchRun data q p)) := by
      rw [hm]; exact List.mem_cons_self _ _
    rcases List.mem_filter.mp hq with ⟨hqL, hqb⟩
    have := of_decide_eq_true hqb
    exact Nat.le_trans this (maxRun_ge data p L q hqL)

theorem maxRun_of_filter_eq_nil (data : List Nat) (p : Nat) (L : List Nat) (b : Nat)
    (h : L.filter (fun q => decide (b ≤ matchRun data q p)) = []) :
    maxRun data p L ≤ b - 1 := by
  apply maxRun_le
  intro q hq
  have := List.filter_eq_nil.mp h q hq
  have hnb : ¬ (b ≤ matchRun data q p) := by
    intro hb
    exact this (decide_eq_true hb)
  omega

theorem searchLongestMatch_spec (data : List Nat) (p : Nat) (L0 : List Nat)
    (hgood : ∀ q ∈ L0, GoodCand data p q) (hp3 : p + 3 ≤ data.length) (hne : L0 ≠ []) :
    (maxRun data p L0 ≤ 258 →
      searchLongestMatch data p L0 =
        (maxRun data p L0,
          p - listMax (L0.filter (fun q => decide (maxRun data p L0 ≤ matchRun data q p))))) ∧
    (259 ≤ maxRun data p L0 →
      searchLongestMatch data p L0 =
        (258, p - listMax (L0.filter (fun q => decide (259 ≤ matchRun data q p))))) := by
  have hL0filter : L0.filter (fun q => decide (3 ≤ matchRun data q p)) = L0 := by
    rw [List.filter_eq_self]
    intro q hq
    rcases hgood q hq with ⟨hqp, hpre⟩
    exact decide_eq_true (matchRun_ge3 data q p hqp hp3 hpre)
  have hstride := strideLoopGo_spec data p L0 hgood hp3 33 3 L0 (by omega) (by omega)
    (by omega) (by omega) hL0filter.symm hne
  simp only [searchLongestMatch, strideLoop, refineLoop]
  rcases hstride with ⟨⟨hm3, hm8, hm259⟩, hL1, hL1ne, hexit⟩
  rcases hexit with h259 | ⟨h251, hempty⟩
  · -- stride exited with matchLength 259: every survivor matches at least 259 bytes
    rw [h259] at hL1
    have hmax : 259 ≤ maxRun data p L0 := by
      apply maxRun_of_filter_ne_nil data p L0 259
      rw [← hL1]
      exact hL1ne
    constructor
    · intro hle
      exact absurd hmax (by omega)
    · intro _
      rw [h259]
      have hif : (if 259 > 3 then 259 - 1 else 259 : Nat) = 258 := by norm_num
      rw [hif]
      have h8 : (8 : Nat) - 0 = 7 + 1 := by norm_num
      rw [h8, refineLoopGo, if_neg (by omega)]
      rw [hL1]
  · -- stride exited by an empty survivor set: the maximum run lies in the
    -- half-open block [matchLength, matchLength + 8) just tested
    have hmaxle : maxRun data p L0 ≤ (strideLoopGo data p 33 L0 3).2 + 7 := by
      have := maxRun_of_filter_eq_nil data p L0 ((strideLoopGo data p 33 L0 3).2 + 8) hempty
      omega
    have hmaxge : (strideLoopGo data p 33 L0 3).2 ≤ maxRun data p L0 := by
      apply maxRun_of_filter_ne_nil
      rw [← hL1]
      exact hL1ne
    have hconc : ∀ m2, m2 = (if (strideLoopGo data p 33 L0 3).2 > 3
          then (strideLoopGo data p 33 L0 3).2 - 1 else (strideLoopGo data p 33 L0 3).2) →
        (refineLoopGo data p (8 - 0) (strideLoopGo data p 33 L0 3).1 m2).2 =
            maxRun data p L0 ∧
          (refineLoopGo data p (8 - 0) (strideLoopGo data p 33 L0 3).1 m2).1 =
            L0.filter (fun q => decide (maxRun data p L0 ≤ matchRun data q p)) := by
      intro m2 hm2
      by_cases hgt : (strideLoopGo data p 33 L0 3).2 > 3
      · rw [if_pos hgt] at hm2
        -- the first refinement step re-tests offset matchLength - 1, which every
        -- survivor already matches, so it keeps the whole list
        have h8 : (8 : Nat) - 0 = 7 + 1 := by norm_num
        rw [h8, refineLoopGo, hm2]
        rw [if_pos (by omega)]
        have hfirst : (strideLoopGo data p 33 L0 3).1.filter
            (fun q => jsEq data (q + ((strideLoopGo data p 33 L0 3).2 - 1))
              (p + ((strideLoopGo data p 33 L0 3).2 - 1))) =
            (strideLoopGo data p 33 L0 3).1 := by
          rw [List.filter_eq_self]
          intro q hq
          rw [hL1, List.mem_filter] at hq
          rcases hq with ⟨hqL, hqm⟩
          have hrun := of_decide_eq_true hqm
          have he := matchRun_eqAt data q p ((strideLoopGo data p 33 L0 3).2 - 1) (by omega)
          have hbounds := eqAt_bounds _ _ _ _ he
          rw [jsEq_char]
          left
          exact ⟨hbounds.1, hbounds.2.1, hbounds.2.2⟩
        rw [hfirst]
        rw [if_neg (by
          intro hcon
          rw [List.isEmpty_iff] at hcon
          exact hL1ne hcon)]
        have harith : (strideLoopGo data p 33 L0 3).2 - 1 + 1 =
            (strideLoopGo data p 33 L0 3).2 := by omega
        rw [harith]
        have hrec := refineLoopGo_spec data p L0 hgood hp3 7 (strideLoopGo data p 33 L0 3).2
          (strideLoopGo data p 33 L0 3).1 (by omega) hL1 hL1ne
        rcases hrec with ⟨hge, hle7, hle258, hL2, hL2ne, hexit2⟩
        have hdown : (refineLoopGo data p 7 (strideLoopGo data p 33 L0 3).1
            (strideLoopGo data p 33 L0 3).2).2 ≤ maxRun data p L0 := by
          apply maxRun_of_filter_ne_nil
          rw [← hL2]
          exact hL2ne
        have hup : maxRun data p L0 ≤ (refineLoopGo data p 7 (strideLoopGo data p 33 L0 3).1
            (strideLoopGo data p 33 L0 3).2).2 := by
          rcases hexit2 with he | he | he
          · omega
          · have hmax258 : max (strideLoopGo data p 33 L0 3).2 258 = 258 := by omega
            rw [hmax258] at hle258
            omega
          · have := maxRun_of_filter_eq_nil data p L0 _ he
            omega
        have hlen2 : (refineLoopGo data p 7 (strideLoopGo data p 33 L0 3).1
            (strideLoopGo data p 33 L0 3).2).2 = maxRun data p L0 := by omega
        rw [hlen2] at hL2 ⊢
        exact ⟨rfl, hL2⟩
      · rw [if_neg hgt] at hm2
        have hrec := refineLoopGo_spec data p L0 hgood hp3 (8 - 0)
          (strideLoopGo data p 33 L0 3).2 (strideLoopGo data p 33 L0 3).1 (by omega) hL1 hL1ne
        rcases hrec with ⟨hge, hle8, hle258, hL2, hL2ne, hexit2⟩
        have hdown : (refineLoopGo data p (8 - 0) (strideLoopGo data p 33 L0 3).1
            (strideLoopGo data p 33 L0 3).2).2 ≤ maxRun data p L0 := by
          apply maxRun_of_filter_ne_nil
          rw [← hL2]
          exact hL2ne
        have hup : maxRun data p L0 ≤ (refineLoopGo data p (8 - 0)
            (strideLoopGo data p 33 L0 3).1 (strideLoopGo data p 33 L0 3).2).2 := by
          rcases hexit2 with he | he | he
          · omega
          · have hmax258 : max (strideLoopGo data p 33 L0 3).2 258 = 258 := by omega
            rw [hmax258] at hle258
            omega
          · have := maxRun_of_filter_eq_nil data p L0 _ he
            omega
        have hlen2 : (refineLoopGo data p (8 - 0) (strideLoopGo data p 33 L0 3).1
            (strideLoopGo data p 33 L0 3).2).2 = maxRun data p L0 := by omega
        rw [hm2]
        rw [hlen2] at hL2 ⊢
        exact ⟨rfl, hL2⟩
    rcases hconc _ rfl with ⟨hcl, hcL⟩
    constructor
    · intro _
      rw [hcl, hcL]
    · intro h259m
      exact absurd h259m (by omega)

theorem listMax_append_singleton (l : List Nat) (x : Nat) :
    listMax (l ++ [x]) = max (listMax l) x := by
  simp only [listMax, List.foldl_append, List.foldl_cons, List.foldl_nil]

theorem maxRun_append_singleton (data : List Nat) (p : Nat) (l : List Nat) (x : Nat) :
    maxRun data p (l ++ [x]) = max (maxRun data p l) (matchRun data x p) := by
  simp only [maxRun, List.map_append, List.map_cons, List.map_nil]
  exact listMax_append_singleton _ _

theorem maxRun_attained (data : List Nat) (p : Nat) (l : List Nat) (h : l ≠ []) :
    ∃ q ∈ l, matchRun data q p = maxRun data p l := by
  have hmapne : l.map (fun q => matchRun data q p) ≠ [] := by
    intro hc
    exact h (List.map_eq_nil.mp hc)
  have hmem := listMax_mem (l.map (fun q => matchRun data q p)) hmapne
  rcases List.mem_map.mp hmem with ⟨q, hq, he⟩
  exact ⟨q, hq, he⟩

theorem naiveSearch_spec (data : List Nat) (p : Nat) (L0 : List Nat)
    (hne : L0 ≠ []) (hqlt : ∀ q ∈ L0, q < p)
    (hrun : ∀ q ∈ L0, 3 ≤ matchRun data q p ∧ matchRun data q p ≤ 258) :
    naiveSearch data p L0 =
      (maxRun data p L0,
        p - listMax (L0.filter (fun q => decide (maxRun data p L0 ≤ matchRun data q p)))) := by
  induction L0 using List.reverseRecOn with
  | nil => cases hne rfl
  | append_singleton l x ih =>
    have hx : x ∈ l ++ [x] := by simp
    have hxlt : x < p := hqlt x hx
    have hxrun := hrun x hx
    have hlen : naiveMatchLength data x p = matchRun data x p := by
      simp only [naiveMatchLength]
      omega
    have hstep : naiveSearch data p (l ++ [x]) =
        (if naiveMatchLength data x p > (naiveSearch data p l).1 ∨
            (naiveMatchLength data x p = (naiveSearch data p l).1 ∧
              p - x < (naiveSearch data p l).2)
         then (naiveMatchLength data x p, p - x) else naiveSearch data p l) := by
      simp only [naiveSearch, List.foldl_append, List.foldl_cons, List.foldl_nil]
    by_cases hl : l = []
    · subst hl
      have hbase : naiveSearch data p ([] : List Nat) = (0, p + 1) := rfl
      rw [List.nil_append] at hstep ⊢
      rw [hstep, hbase, hlen]
      dsimp only
      rw [if_pos (Or.inl (by omega))]
      have hM : maxRun data p [x] = matchRun data x p := by
        simp only [maxRun, List.map_cons, List.map_nil, listMax, List.foldl_cons,
          List.foldl_nil]
        omega
      simp only [hM]
      have hf : List.filter (fun q => decide (matchRun data x p ≤ matchRun data q p)) [x]
          = [x] := by
        rw [List.filter_eq_self]
        intro a ha
        rcases List.mem_singleton.mp ha with rfl
        exact decide_eq_true (Nat.le_refl _)
      rw [hf]
      have hlx : listMax [x] = x := by simp [listMax]
      rw [hlx]
    · have ihl := ih hl (fun q hq => hqlt q (by simp [hq]))
        (fun q hq => hrun q (by simp [hq]))
      rw [hstep, ihl, hlen]
      dsimp only
      have hMl3 : 3 ≤ maxRun data p l := by
        match l, hl with
        | q :: _, _ =>
          exact Nat.le_trans (hrun q (by simp)).1 (maxRun_ge data p _ q (by simp))
      have hfilter_ne :
          l.filter (fun q => decide (maxRun data p l ≤ matchRun data q p)) ≠ [] := by
        rcases maxRun_attained data p l hl with ⟨q, hq, he⟩
        intro hcon
        have := List.filter_eq_nil.mp hcon q hq
        exact this (decide_eq_true (by omega))
      have hQmem := listMax_mem _ hfilter_ne
      rcases List.mem_filter.mp hQmem with ⟨hQl, hQrun⟩
      have hQlt :
          listMax (l.filter (fun q => decide (maxRun data p l ≤ matchRun data q p))) < p :=
        hqlt _ (by simp [hQl])
      simp only [maxRun_append_singleton]
      by_cases hgt : matchRun data x p > maxRun data p l
      · rw [if_pos (Or.inl hgt)]
        have hM : max (maxRun data p l) (matchRun data x p) = matchRun data x p := by omega
        simp only [hM, List.filter_append]
        have hfl : l.filter (fun q => decide (matchRun data x p ≤ matchRun data q p)) = [] := by
          rw [List.filter_eq_nil]
          intro q hq hdec
          have h1 := of_decide_eq_true hdec
          have h2 := maxRun_ge data p l q hq
          omega
        have hfx : List.filter (fun q => decide (matchRun data x p ≤ matchRun data q p)) [x]
            = [x] := by
          rw [List.filter_eq_self]
          intro a ha
          rcases List.mem_singleton.mp ha with rfl
          exact decide_eq_true (Nat.le_refl _)
        rw [hfl, hfx, List.nil_append]
        have hlx : listMax [x] = x := by simp [listMax]
        rw [hlx]
      · have hM : max (maxRun data p l) (matchRun data x p) = maxRun data p l := by omega
        simp only [hM, List.filter_append]
        by_cases heq : matchRun data x p = maxRun data p l
        · have hfx : List.filter (fun q => decide (maxRun data p l ≤ matchRun data q p)) [x]
              = [x] := by
            rw [List.filter_eq_self]
            intro a ha
            rcases List.mem_singleton.mp ha with rfl
            exact decide_eq_true (by omega)
          rw [hfx, listMax_append_singleton]
          by_cases hd : p - x <
              p - listMax (l.filter (fun q => decide (maxRun data p l ≤ matchRun data q p)))
          · rw [if_pos (Or.inr ⟨heq, hd⟩)]
            have hQx :
                listMax (l.filter (fun q => decide (maxRun data p l ≤ matchRun data q p)))
                  < x := by omega
            have hmx :
                max (listMax (l.filter
                  (fun q => decide (maxRun data p l ≤ matchRun data q p)))) x = x := by omega
            rw [hmx, heq]
          · rw [if_neg (by
              rintro (hc | ⟨_, hc⟩)
              · omega
              · exact hd hc)]
            have hmx :
                max (listMax (l.filter
                  (fun q => decide (maxRun data p l ≤ matchRun data q p)))) x =
                listMax (l.filter (fun q => decide (maxRun data p l ≤ matchRun data q p))) := by
              omega
            rw [hmx]
        · rw [if_neg (by
            rintro (hc | ⟨hc, _⟩)
            · omega
            · omega)]
          have hfx : List.filter (fun q => decide (maxRun data p l ≤ matchRun data q p)) [x]
              = [] := by
            rw [List.filter_eq_nil]
            intro a ha hdec
            rcases List.mem_singleton.mp ha with rfl
            have := of_decide_eq_true hdec
            omega
          rw [hfx, List.append_nil]

/-- C5 (amended): for every input, position and nonempty candidate list where each
candidate precedes the position, shares its 3-byte prefix, the position has 3 bytes
of room, and no candidate's per-byte match run reaches 259 bytes, the staged
search (8-byte stride, decrement, per-byte refine) returns the same
(length, distance) pair as the naive per-byte longest-match search with
smallest-distance tie-breaking. -/
theorem claim_C5_amended (data : List Nat) (p : Nat) (L0 : List Nat)
    (hne : L0 ≠ []) (hgood : ∀ q ∈ L0, GoodCand data p q)
    (hp3 : p + 3 ≤ data.length)
    (hcap : ∀ q ∈ L0, matchRun data q p ≤ 258) :
    searchLongestMatch data p L0 = naiveSearch data p L0 := by
  have hM : maxRun data p L0 ≤ 258 := maxRun_le data p L0 258 hcap
  have h1 := (searchLongestMatch_spec data p L0 hgood hp3 hne).1 hM
  have h2 := naiveSearch_spec data p L0 hne (fun q hq => (hgood q hq).1)
    (fun q hq => ⟨matchRun_ge3 data q p (hgood q hq).1 hp3 (hgood q hq).2, hcap q hq⟩)
  rw [h1, h2]

theorem claim_C5_amended_witness :
    searchLongestMatch [0, 0, 0, 0, 0, 0] 3 [0] = naiveSearch [0, 0, 0, 0, 0, 0] 3 [0] :=
  claim_C5_amended [0, 0, 0, 0, 0, 0] 3 [0] (by decide)
    (fun q hq => by
      rcases List.mem_singleton.mp hq with rfl
      exact ⟨by decide, by decide⟩)
    (by decide) (by decide)

/-- Disjoint bitwise or is addition: `(a * 2^k) ||| b = a * 2^k + b` for `b < 2^k`. -/
theorem lor_mul_pow (k : Nat) : ∀ a b : Nat, b < 2 ^ k → (a * 2 ^ k) ||| b = a * 2 ^ k + b := by
  induction k with
  | zero =>
    intro a b hb
    have hb0 : b = 0 := by omega
    subst hb0
    simp
  | succ k ih =>
    intro a b hb
    have h1 : a * 2 ^ (k + 1) = Nat.bit false (a * 2 ^ k) := by
      simp only [Nat.bit_val, Bool.toNat_false, Nat.add_zero, Nat.pow_succ]
      ring
    have h2 : b = Nat.bit (b % 2 = 1) (b / 2) := by
      rw [Nat.bit_val]
      rcases Nat.mod_two_eq_zero_or_one b with h | h <;> simp [h] <;> omega
    have hpow : 2 ^ (k + 1) = 2 ^ k * 2 := by rw [Nat.pow_succ]
    have hdiv : b / 2 < 2 ^ k := by omega
    rw [h1, h2, Nat.lor_bit, ih a (b / 2) hdiv, Nat.bit_val, Nat.bit_val]
    rcases Nat.mod_two_eq_zero_or_one b with h | h <;> simp [h] <;> omega

theorem shiftLeft8_lor (a b : Nat) (hb : b < 256) : (a <<< 8) ||| b = a * 256 + b := by
  have h : (2 : Nat) ^ 8 = 256 := by norm_num
  rw [Nat.shiftLeft_eq, lor_mul_pow 8 a b (by rw [h]; exact hb), h]

theorem take3_eq (data : List Nat) (q : Nat) (h : q + 3 ≤ data.length) :
    (data.drop q).take 3 =
      [data.getD q 0, data.getD (q + 1) 0, data.getD (q + 2) 0] := by
  have h0 : q < data.length := by omega
  have h1 : q + 1 < data.length := by omega
  have h2 : q + 2 < data.length := by omega
  rw [List.drop_eq_getElem_cons h0, List.take_succ_cons,
    List.drop_eq_getElem_cons h1, List.take_succ_cons,
    List.drop_eq_getElem_cons h2, List.take_succ_cons, List.take_zero]
  simp [List.getD_eq_getElem?_getD, List.getElem?_eq_getElem, h0, h1, h2]

theorem getD_lt_256 (data : List Nat) (q : Nat) (hq : q < data.length)
    (hbytes : ∀ b ∈ data, b < 256) : data.getD q 0 < 256 := by
  have he : data.getD q 0 = data[q] := by
    simp [List.getD_eq_getElem?_getD, List.getElem?_eq_getElem, hq]
  rw [he]
  exact hbytes _ (List.getElem_mem _)

theorem keyOf_eval (data : List Nat) (q : Nat) (h : q + 3 ≤ data.length)
    (hbytes : ∀ b ∈ data, b < 256) :
    keyOf data q =
      data.getD q 0 * 65536 + data.getD (q + 1) 0 * 256 + data.getD (q + 2) 0 := by
  have ha : data.getD q 0 < 256 := getD_lt_256 data q (by omega) hbytes
  have hb : data.getD (q + 1) 0 < 256 := getD_lt_256 data (q + 1) (by omega) hbytes
  have hc : data.getD (q + 2) 0 < 256 := getD_lt_256 data (q + 2) (by omega) hbytes
  rw [keyOf, take3_eq data q h]
  simp only [List.foldl_cons, List.foldl_nil]
  rw [Nat.mod_eq_of_lt ha, Nat.mod_eq_of_lt hb, Nat.mod_eq_of_lt hc]
  have e1 : (0 <<< 8) ||| data.getD q 0 = data.getD q 0 := by
    rw [shiftLeft8_lor 0 _ ha]
    omega
  rw [e1, shiftLeft8_lor _ _ hb, shiftLeft8_lor _ _ hc]
  ring

/-- Equal 3-byte keys over byte data mean equal 3-byte prefixes. -/
theorem keyOf_inj (data : List Nat) (q p : Nat) (hq : q + 3 ≤ data.length)
    (hp : p + 3 ≤ data.length) (hbytes : ∀ b ∈ data, b < 256)
    (hkey : keyOf data q = keyOf data p) :
    ∀ i < 3, data.getD (q + i) 0 = data.getD (p + i) 0 := by
  rw [keyOf_eval data q hq hbytes, keyOf_eval data p hp hbytes] at hkey
  have ha := getD_lt_256 data q (by omega) hbytes
  have hb := getD_lt_256 data (q + 1) (by omega) hbytes
  have hc := getD_lt_256 data (q + 2) (by omega) hbytes
  have ha' := getD_lt_256 data p (by omega) hbytes
  have hb' := getD_lt_256 data (p + 1) (by omega) hbytes
  have hc' := getD_lt_256 data (p + 2) (by omega) hbytes
  intro i hi
  interval_cases i
  · simp only [Nat.add_zero]
    omega
  · omega
  · omega

/-- After `dropWhile (32768 < pos - q)` on a sorted bucket, every survivor is
inside the 32768-byte window. -/
theorem mem_dropWhile_window (pos : Nat) (l : List Nat) (hs : l.Pairwise (· < ·)) :
    ∀ q ∈ l.dropWhile (fun q => decide (32768 < pos - q)), pos - q ≤ 32768 := by
  induction l with
  | nil => intro q hq; cases hq
  | cons a t ih =>
    intro q hq
    by_cases hP : 32768 < pos - a
    · rw [List.dropWhile_cons_of_pos (by simpa using hP)] at hq
      exact ih (List.Pairwise.of_cons hs) q hq
    · rw [List.dropWhile_cons_of_neg (by simpa using hP)] at hq
      rcases List.mem_cons.mp hq with rfl | hq'
      · omega
      · have := (List.pairwise_cons.mp hs).1 q hq'
        omega

/-- Inserting the current position at its own key preserves the table
invariant for the next position, for any sorted sub-bucket `L`. -/
theorem tableSet_self (t : Nat → List Nat) (k : Nat) (v : List Nat) :
    tableSet t k v k = v := by
  simp [tableSet]

theorem tableSet_ne (t : Nat → List Nat) (k : Nat) (v : List Nat) (k' : Nat)
    (h : k' ≠ k) : tableSet t k v k' = t k' := by
  simp [tableSet, h]

theorem TableInv_insert (data : List Nat) (pos : Nat) (t : Nat → List Nat)
    (hinv : TableInv data pos t) (L : List Nat) (k : Nat)
    (hsub : ∀ q ∈ L, q ∈ t k) (hLp : L.Pairwise (· < ·))
    (hkey : keyOf data pos = k) :
    TableInv data (pos + 1) (tableSet t k (L ++ [pos])) := by
  intro k'
  by_cases hk : k' = k
  · rw [hk, tableSet_self]
    constructor
    · intro q hq
      rcases List.mem_append.mp hq with hq | hq
      · have h := (hinv k).1 q (hsub q hq)
        exact ⟨by omega, h.2⟩
      · rcases List.mem_singleton.mp hq with rfl
        exact ⟨by omega, hkey⟩
    · rw [List.pairwise_append]
      refine ⟨hLp, List.pairwise_singleton _ _, ?_⟩
      intro a ha b hb
      rcases List.mem_singleton.mp hb with rfl
      exact ((hinv k).1 a (hsub a ha)).1
  · rw [tableSet_ne _ _ _ _ hk]
    refine ⟨fun q hq => ?_, (hinv k').2⟩
    have h := (hinv k').1 q hq
    exact ⟨by omega, h.2⟩

/-- The distance of the staged search points at a candidate from the list
whose match run covers the returned length. -/
theorem searchLongestMatch_valid (data : List Nat) (p : Nat) (L0 : List Nat)
    (hgood : ∀ q ∈ L0, GoodCand data p q) (hp3 : p + 3 ≤ data.length) (hne : L0 ≠ []) :
    ∃ qh ∈ L0,
      (searchLongestMatch data p L0).2 = p - qh ∧
      3 ≤ (searchLongestMatch data p L0).1 ∧ (searchLongestMatch data p L0).1 ≤ 258 ∧
      (searchLongestMatch data p L0).1 ≤ matchRun data qh p := by
  rcases maxRun_attained data p L0 hne with ⟨q0, hq0, hq0run⟩
  have h3 : 3 ≤ matchRun data q0 p :=
    matchRun_ge3 data q0 p (hgood q0 hq0).1 hp3 (hgood q0 hq0).2
  have spec := searchLongestMatch_spec data p L0 hgood hp3 hne
  by_cases hcap : maxRun data p L0 ≤ 258
  · have heq := spec.1 hcap
    have hFne : L0.filter (fun q => decide (maxRun data p L0 ≤ matchRun data q p)) ≠ [] := by
      intro hc
      have := List.filter_eq_nil.mp hc q0 hq0
      exact this (decide_eq_true (by omega))
    have hmem := listMax_mem _ hFne
    rcases List.mem_filter.mp hmem with ⟨hmemL, hdec⟩
    refine ⟨_, hmemL, ?_, ?_, ?_, ?_⟩
    · rw [heq]
    · rw [heq]
      exact Nat.le_trans h3 (by rw [hq0run])
    · rw [heq]
      exact hcap
    · rw [heq]
      exact of_decide_eq_true hdec
  · have h259 : 259 ≤ maxRun data p L0 := by omega
    have heq := spec.2 h259
    have hFne : L0.filter (fun q => decide (259 ≤ matchRun data q p)) ≠ [] := by
      intro hc
      have := List.filter_eq_nil.mp hc q0 hq0
      exact this (decide_eq_true (by omega))
    have hmem := listMax_mem _ hFne
    rcases List.mem_filter.mp hmem with ⟨hmemL, hdec⟩
    refine ⟨_, hmemL, ?_, ?_, ?_, ?_⟩
    · rw [heq]
    · rw [heq]
      omega
    · rw [heq]
    · rw [heq]
      have := of_decide_eq_true hdec
      omega

/-- If the staged search is called at a position with 3 bytes of room, on a
candidate list of good candidates, its emitted match satisfies C2. -/
theorem searchLongestMatch_MatchOK (data : List Nat) (pos : Nat) (L0 : List Nat)
    (hgood : ∀ q ∈ L0, GoodCand data pos q) (hp3 : pos + 3 ≤ data.length)
    (hne : L0 ≠ []) (hwin : ∀ q ∈ L0, pos - q ≤ 32768) :
    MatchOK data pos (searchLongestMatch data pos L0).1
      (searchLongestMatch data pos L0).2 := by
  rcases searchLongestMatch_valid data pos L0 hgood hp3 hne with
    ⟨qh, hqh, hdist, h3, h258, hcover⟩
  have hqlt : qh < pos := (hgood qh hqh).1
  have hlast : eqAt data qh pos ((searchLongestMatch data pos L0).1 - 1) = true :=
    matchRun_eqAt data qh pos _ (by omega)
  have hbounds := eqAt_bounds _ _ _ _ hlast
  refine ⟨by omega, ?_, h3, h258, by omega, ?_⟩
  · rw [hdist]
    exact hwin qh hqh
  · intro i hi
    have he := matchRun_eqAt data qh pos i (by omega)
    have hb := eqAt_bounds _ _ _ _ he
    have hsub : pos - (searchLongestMatch data pos L0).2 = qh := by omega
    rw [hsub]
    exact hb.2.2

/-- Every match token accumulated by the lz77 main loop satisfies C2, given
the table invariant and that the tokens so far do. -/
theorem lz77LoopGo_sound (data : List Nat) (hbytes : ∀ b ∈ data, b < 256)
    (isDynamic : Bool) :
    ∀ fuel pos st, TableInv data pos st.table →
      (∀ p l d, Lz77Token.mat p l d ∈ st.tokens → MatchOK data p l d) →
      ∀ p l d, Lz77Token.mat p l d ∈ (lz77LoopGo data isDynamic fuel pos st).tokens →
        MatchOK data p l d := by
  intro fuel
  induction fuel with
  | zero =>
    intro pos st hinv hok p l d hmem
    exact hok p l d hmem
  | succ fuel ih =>
    intro pos st hinv hok p l d hmem
    simp only [lz77LoopGo] at hmem
    by_cases hlt : pos < data.length
    swap
    · rw [if_neg hlt] at hmem
      exact hok p l d hmem
    rw [if_pos hlt] at hmem
    by_cases hflush : ((data.drop pos).take 3).length < 3 ∧ st.skipLength = 0
    · rw [if_pos hflush] at hmem
      simp only [List.mem_append] at hmem
      rcases hmem with hmem | hmem
      · exact hok p l d hmem
      · rcases List.mem_map.mp hmem with ⟨b, _, hb⟩
        cases hb
    · rw [if_neg hflush] at hmem
      set K := ((data.drop pos).take 3).foldl (fun k b => (k <<< 8) ||| (b % 256)) 0 with hK
      by_cases hskip : st.skipLength > 0
      · rw [if_pos hskip] at hmem
        exact ih (pos + 1)
          { st with
            skipLength := st.skipLength - 1,
            table := tableSet st.table K (st.table K ++ [pos]) }
          (TableInv_insert data pos st.table hinv (st.table K) K (fun q hq => hq)
            (hinv K).2 rfl)
          hok p l d hmem
      · rw [if_neg hskip] at hmem
        have hkey3 : pos + 3 ≤ data.length := by
          have hlen : ((data.drop pos).take 3).length = min 3 (data.length - pos) := by
            simp [List.length_take, List.length_drop]
          by_contra hcon
          exact hflush ⟨by rw [hlen]; omega, by omega⟩
        set ML := (st.table K).dropWhile (fun q => decide (32768 < pos - q)) with hML
        have hsubL : ∀ q ∈ ML, q ∈ st.table K := by
          rw [hML]
          exact fun q hq => (List.dropWhile_sublist _).subset hq
        have hLp : ML.Pairwise (· < ·) := by
          rw [hML]
          exact List.Pairwise.sublist (List.dropWhile_sublist _) (hinv K).2
        by_cases hempty : ML.isEmpty
        · rw [if_pos hempty] at hmem
          refine ih (pos + 1)
            { st with
              tokens := st.tokens ++ [Lz77Token.lit (data.getD pos 0)],
              freqsLitLen := if isDynamic then incAt st.freqsLitLen (data.getD pos 0)
                             else st.freqsLitLen,
              table := tableSet st.table K (ML ++ [pos]) }
            (TableInv_insert data pos st.table hinv ML K hsubL hLp rfl)
            ?_ p l d hmem
          intro p' l' d' hmem'
          simp only [List.mem_append] at hmem'
          rcases hmem' with hmem' | hmem'
          · exact hok p' l' d' hmem'
          · rcases List.mem_singleton.mp hmem' with hlitm
            cases hlitm
        · rw [if_neg hempty] at hmem
          have hne : ML ≠ [] := by
            intro hc
            rw [hc] at hempty
            exact hempty rfl
          have hgood : ∀ q ∈ ML, GoodCand data pos q := by
            intro q hq
            have h := (hinv K).1 q (hsubL q hq)
            have hq3 : q + 3 ≤ data.length := by omega
            refine ⟨h.1, ?_⟩
            exact keyOf_inj data q pos hq3 hkey3 hbytes (h.2.trans rfl)
          have hwin : ∀ q ∈ ML, pos - q ≤ 32768 := by
            rw [hML]
            exact mem_dropWhile_window pos _ (hinv K).2
          refine ih (pos + 1)
            { st with
              tokens := st.tokens ++
                [Lz77Token.mat pos (searchLongestMatch data pos ML).1
                  (searchLongestMatch data pos ML).2],
              freqsLitLen := if isDynamic then
                  incAt st.freqsLitLen
                    ((toLz77Array (searchLongestMatch data pos ML).1
                      (searchLongestMatch data pos ML).2).getD 0 0)
                else st.freqsLitLen,
              freqsDist := if isDynamic then
                  incAt st.freqsDist
                    ((toLz77Array (searchLongestMatch data pos ML).1
                      (searchLongestMatch data pos ML).2).getD 3 0)
                else st.freqsDist,
              skipLength := (searchLongestMatch data pos ML).1 - 1,
              table := tableSet st.table K (ML ++ [pos]) }
            (TableInv_insert data pos st.table hinv ML K hsubL hLp rfl)
            ?_ p l d hmem
          intro p' l' d' hmem'
          simp only [List.mem_append] at hmem'
          rcases hmem' with hmem' | hmem'
          · exact hok p' l' d' hmem'
          · rcases List.mem_singleton.mp hmem' with hmat
            injection hmat with h1 h2 h3
            rw [h1, h2, h3]
            exact searchLongestMatch_MatchOK data pos ML hgood hkey3 hne hwin

/-- C2: every `(length, distance)` match token emitted by the LZ77 stage on
byte-valued input satisfies `1 ≤ distance ≤ 32768`, `3 ≤ length ≤ 258`, stays
inside the input, and copies `length` bytes equal to those at
`position − distance`. -/
theorem claim_C2 (data : List Nat) (hbytes : ∀ b ∈ data, b < 256) (isDynamic : Bool)
    (p l d : Nat) (hmem : (p, l, d) ∈ lz77Matches data isDynamic) :
    1 ≤ d ∧ d ≤ 32768 ∧ 3 ≤ l ∧ l ≤ 258 ∧ p + l ≤ data.length ∧
      ∀ i < l, data.getD (p - d + i) 0 = data.getD (p + i) 0 := by
  have htok : Lz77Token.mat p l d ∈ (lz77Run data isDynamic).tokens := by
    rcases List.mem_filterMap.mp hmem with ⟨t, ht, hval⟩
    cases t with
    | lit b => cases hval
    | mat p0 l0 d0 =>
      simp only [Option.some.injEq, Prod.mk.injEq] at hval
      rcases hval with ⟨h1, h2, h3⟩
      rw [← h1, ← h2, ← h3]
      exact ht
  have htok2 : Lz77Token.mat p l d ∈
      (lz77LoopGo data isDynamic (data.length - 0) 0
        ⟨fun _ => [], 0, [], if isDynamic then List.replicate 286 0 else [],
          if isDynamic then List.replicate 30 0 else []⟩).tokens := by
    simp only [lz77Run, lz77Loop, List.mem_append] at htok
    rcases htok with htok | htok
    · exact htok
    · rcases List.mem_singleton.mp htok with hlitm
      cases hlitm
  have hinv0 : TableInv data 0
      (Lz77State.table ⟨fun _ => [], 0, [], if isDynamic then List.replicate 286 0 else [],
        if isDynamic then List.replicate 30 0 else []⟩) :=
    fun _ => ⟨fun q hq => absurd hq (List.not_mem_nil q), List.Pairwise.nil⟩
  have hok0 : ∀ p' l' d', Lz77Token.mat p' l' d' ∈
      (Lz77State.tokens ⟨fun _ => [], 0, [], if isDynamic then List.replicate 286 0 else [],
        if isDynamic then List.replicate 30 0 else []⟩ : List Lz77Token) →
      MatchOK data p' l' d' :=
    fun p' l' d' hq => absurd hq (List.not_mem_nil _)
  exact lz77LoopGo_sound data hbytes isDynamic (data.length - 0) 0 _ hinv0 hok0 p l d htok2

theorem claim_C2_witness :
    ((1, 5, 1) ∈ lz77Matches [97, 97, 97, 97, 97, 97] false) ∧
    (1 ≤ 1 ∧ 1 ≤ 32768 ∧ 3 ≤ 5 ∧ 5 ≤ 258 ∧
      1 + 5 ≤ ([97, 97, 97, 97, 97, 97] : List Nat).length ∧
      ∀ i < 5, ([97, 97, 97, 97, 97, 97] : List Nat).getD (1 - 1 + i) 0 =
        ([97, 97, 97, 97, 97, 97] : List Nat).getD (1 + i) 0) :=
  ⟨by decide, claim_C2 [97, 97, 97, 97, 97, 97] (by decide) false 1 5 1 (by decide)⟩

theorem codeAcc_eq_two_partialKraft (count : Nat → Nat) (i : Nat) :
    codeAcc count i = 2 * partialKraft count i := by
  induction i with
  | zero => rfl
  | succ i ih =>
    simp only [codeAcc, partialKraft]
    omega

theorem partialKraft_eq_sum (count : Nat → Nat) (i : Nat) :
    partialKraft count i =
      ((List.range i).map (fun t => count (t + 1) * 2 ^ (i - (t + 1)))).sum := by
  induction i with
  | zero => rfl
  | succ i ih =>
    rw [List.range_succ, List.map_append, List.sum_append]
    simp only [List.map_cons, List.map_nil, List.sum_cons, List.sum_nil]
    have hmap : (List.range i).map (fun t => count (t + 1) * 2 ^ (i + 1 - (t + 1))) =
        (List.range i).map (fun t => 2 * (count (t + 1) * 2 ^ (i - (t + 1)))) := by
      apply List.map_congr_left
      intro t ht
      have htlt : t < i := List.mem_range.mp ht
      have hexp : i + 1 - (t + 1) = (i - (t + 1)) + 1 := by omega
      rw [hexp, pow_succ]
      ring
    rw [hmap, List.sum_map_mul_left, ← ih]
    simp only [partialKraft, Nat.sub_self, pow_zero]
    omega

theorem kraftSum_eq_partialKraft (lengths : List Nat) :
    kraftSum lengths = partialKraft (fun l => lengths.count l) 16 := by
  rw [partialKraft_eq_sum, kraftSum]

/-- The starting-code loop characterized: starting at width `i` with the
accumulator for widths below `i`, it fails with "overcommitted" exactly when
some later width's Kraft allocation overflows, and otherwise returns the
final accumulator and the start codes of widths `i .. 16`. -/
theorem kraftScanGo_spec (count : Nat → Nat) :
    ∀ fuel i code start, i + fuel = 17 → 1 ≤ i → code = codeAcc count (i - 1) →
      ((∃ j, i ≤ j ∧ j < 17 ∧ 2 ^ j < partialKraft count j) →
        kraftScanGo count fuel i code start = .error "overcommitted") ∧
      ((∀ j, i ≤ j → j < 17 → partialKraft count j ≤ 2 ^ j) →
        kraftScanGo count fuel i code start =
          .ok (codeAcc count 16,
            start ++ (List.range fuel).map (fun t => codeAcc count (i - 1 + t)))) := by
  intro fuel
  induction fuel with
  | zero =>
    intro i code start hif h1 hcode
    constructor
    · rintro ⟨j, hj1, hj2, _⟩
      omega
    · intro _
      have hi : i = 17 := by omega
      subst hi
      simp only [kraftScanGo, List.range_zero, List.map_nil, List.append_nil]
      rw [hcode]
    | succ fuel ih =>
    intro i code start hif h1 hcode
    have hi16 : i ≤ 16 := by omega
    have hpk : partialKraft count i = code + count i := by
      match i, h1 with
      | i + 1, _ =>
        simp only [partialKraft]
        rw [hcode]
        simp only [Nat.add_sub_cancel]
        rw [codeAcc_eq_two_partialKraft]
    constructor
    · rintro ⟨j, hj1, hj2, hjf⟩
      simp only [kraftScanGo]
      rw [if_pos hi16]
      by_cases hfail : code + count i > 1 <<< i
      · rw [if_pos hfail]
      · rw [if_neg hfail]
        have hji : j ≠ i := by
          intro hcon
          rw [hcon, hpk] at hjf
          rw [Nat.one_shiftLeft] at hfail
          omega
        have hcode2 : (code + count i) <<< 1 = codeAcc count (i + 1 - 1) := by
          simp only [Nat.add_sub_cancel]
          match i, h1 with
          | i + 1, _ =>
            simp only [codeAcc]
            rw [hcode]
            simp only [Nat.add_sub_cancel]
            rw [Nat.shiftLeft_eq]
        exact (ih (i + 1) _ _ (by omega) (by omega) hcode2).1 ⟨j, by omega, hj2, hjf⟩
    · intro hall
      simp only [kraftScanGo]
      rw [if_pos hi16]
      have hok : ¬(code + count i > 1 <<< i) := by
        have h2 := hall i (Nat.le_refl i) (by omega)
        rw [Nat.one_shiftLeft, gt_iff_lt, not_lt, ← hpk]
        exact h2
      rw [if_neg hok]
      have hcode2 : (code + count i) <<< 1 = codeAcc count (i + 1 - 1) := by
        simp only [Nat.add_sub_cancel]
        match i, h1 with
        | i + 1, _ =>
          simp only [codeAcc]
          rw [hcode]
          simp only [Nat.add_sub_cancel]
          rw [Nat.shiftLeft_eq]
      have hres := (ih (i + 1) _ (start ++ [code]) (by omega) (by omega) hcode2).2
        (fun j hj1 hj2 => hall j (by omega) hj2)
      rw [hres]
      congr 1
      rw [List.append_assoc, List.singleton_append]
      congr 1
      rw [List.range_succ_eq_map, List.map_cons]
      have hhead : codeAcc count (i - 1 + 0) = code := by
        rw [hcode, Nat.add_zero]
      rw [hhead, List.map_map]
      have hmap2 : List.map (fun t => codeAcc count (i + 1 - 1 + t)) (List.range fuel) =
          List.map ((fun t => codeAcc count (i - 1 + t)) ∘ Nat.succ) (List.range fuel) := by
        apply List.map_congr_left
        intro t ht
        simp only [Function.comp]
        congr 1
        omega
      rw [hmap2]

theorem getD_set_self (l : List Nat) (x v : Nat) (h : x < l.length) :
    (l.set x v).getD x 0 = v := by
  simp [List.getD_eq_getElem?_getD, List.getElem?_set_self, h]

theorem getD_set_ne (l : List Nat) (x v i : Nat) (h : i ≠ x) :
    (l.set x v).getD i 0 = l.getD i 0 := by
  simp [List.getD_eq_getElem?_getD, List.getElem?_set_ne (Ne.symm h)]

/-- The code-assignment fold of getCodesFromLengths_ increments exactly the
slot of each processed length. -/
theorem assignFold_fst (startCode : List Nat) :
    ∀ xs : List Nat, (∀ x ∈ xs, x < startCode.length) →
      ((xs.foldl (fun (st : List Nat × List Nat) len =>
          (st.1.set len (st.1.getD len 0 + 1), st.2 ++ [bitRevCode len (st.1.getD len 0)]))
        (startCode, ([] : List Nat))).1.length = startCode.length ∧
      ∀ l, (xs.foldl (fun (st : List Nat × List Nat) len =>
          (st.1.set len (st.1.getD len 0 + 1), st.2 ++ [bitRevCode len (st.1.getD len 0)]))
        (startCode, ([] : List Nat))).1.getD l 0 = startCode.getD l 0 + xs.count l) := by
  intro xs
  induction xs using List.reverseRecOn with
  | nil =>
    intro _
    exact ⟨rfl, fun l => by simp⟩
  | append_singleton xs x ih =>
    intro hx
    have hx' : ∀ y ∈ xs, y < startCode.length := fun y hy => hx y (by simp [hy])
    have hxx : x < startCode.length := hx x (by simp)
    rcases ih hx' with ⟨ihlen, ihslot⟩
    rw [List.foldl_append, List.foldl_cons, List.foldl_nil]
    constructor
    · rw [List.length_set]
      exact ihlen
    · intro l
      by_cases hl : l = x
      · rw [hl, getD_set_self _ _ _ (by rw [ihlen]; exact hxx), ihslot x,
          List.count_append]
        have hc1 : ([x] : List Nat).count x = 1 := by simp
        rw [hc1]
        omega
      · rw [getD_set_ne _ _ _ _ hl, ihslot l, List.count_append]
        have hc : ([x] : List Nat).count l = 0 := List.count_eq_zero.mpr (by simp [hl])
        rw [hc]
        omega

theorem assignFold_snd (startCode : List Nat) :
    ∀ xs : List Nat, (∀ x ∈ xs, x < startCode.length) →
      (xs.foldl (fun (st : List Nat × List Nat) len =>
          (st.1.set len (st.1.getD len 0 + 1), st.2 ++ [bitRevCode len (st.1.getD len 0)]))
        (startCode, ([] : List Nat))).2 =
      (List.range xs.length).map (fun s =>
        bitRevCode (xs.getD s 0)
          (startCode.getD (xs.getD s 0) 0 + (xs.take s).count (xs.getD s 0))) := by
  intro xs
  induction xs using List.reverseRecOn with
  | nil =>
    intro _
    rfl
  | append_singleton xs x ih =>
    intro hx
    have hx' : ∀ y ∈ xs, y < startCode.length := fun y hy => hx y (by simp [hy])
    have hxx : x < startCode.length := hx x (by simp)
    have hfst := (assignFold_fst startCode xs hx').2 x
    rw [List.foldl_append, List.foldl_cons, List.foldl_nil]
    simp only
    rw [ih hx', hfst]
    rw [List.length_append, List.length_singleton, List.range_succ, List.map_append]
    congr 1
    · apply List.map_congr_left
      intro s hs
      have hslt : s < xs.length := List.mem_range.mp hs
      have hgd : (xs ++ [x]).getD s 0 = xs.getD s 0 := by
        simp [List.getD_eq_getElem?_getD, List.getElem?_append_left hslt]
      have htk : (xs ++ [x]).take s = xs.take s :=
        List.take_append_of_le_length (by omega)
      rw [hgd, htk]
    · simp only [List.map_cons, List.map_nil]
      have hgd : (xs ++ [x]).getD xs.length 0 = x := by
        simp [List.getD_eq_getElem?_getD]
      have htk : (xs ++ [x]).take xs.length = xs := List.take_left xs [x]
      rw [hgd, htk]

/-- Slot `l` of the start-code array built by the scan (`[0]` sentinel plus
the accumulators of widths `1 .. 16`). -/
theorem startCode_getD (count : Nat → Nat) (l : Nat) (hl : l ≤ 16) :
    ([0] ++ (List.range 16).map (fun t => codeAcc count t)).getD l 0 =
      codeAcc count (l - 1) := by
  cases l with
  | zero => rfl
  | succ ll =>
    have hll : ll < 16 := by omega
    simp [List.getD_eq_getElem?_getD, List.getElem?_map, List.getElem?_range, hll]

/-- C4 (amended): for a code-length array with entries at most 16,
getCodesFromLengths_ raises "overcommitted" exactly when the Kraft
allocation of some width `1 ≤ j ≤ 16` exceeds `2^j`; otherwise it raises
"undercommitted" exactly when the total allocation is below `2^15` (the
code compares the doubled accumulator against `2^16`, so allocations
between `2^15` and `2^16` - Kraft-deficient codes - are accepted);
otherwise it returns, for every symbol, the start code of its length class
plus the symbol's rank within the class, bit-reversed to that length. -/
theorem claim_C4_amended (lengths : List Nat) (hlen : ∀ l ∈ lengths, l ≤ 16) :
    ((∃ j < 17, 1 ≤ j ∧ 2 ^ j < partialKraft (fun l => lengths.count l) j) →
        getCodesFromLengths lengths = .error "overcommitted") ∧
    ((∀ j < 17, 1 ≤ j → partialKraft (fun l => lengths.count l) j ≤ 2 ^ j) →
      kraftSum lengths < 2 ^ 15 →
        getCodesFromLengths lengths = .error "undercommitted") ∧
    ((∀ j < 17, 1 ≤ j → partialKraft (fun l => lengths.count l) j ≤ 2 ^ j) →
      2 ^ 15 ≤ kraftSum lengths →
        getCodesFromLengths lengths = .ok ((List.range lengths.length).map (fun s =>
          bitRevCode (lengths.getD s 0)
            (codeAcc (fun l => lengths.count l) (lengths.getD s 0 - 1) +
              (lengths.take s).count (lengths.getD s 0))))) := by
  have heq : kraftScan (fun l => lengths.count l) 1 0 [0] =
      kraftScanGo (fun l => lengths.count l) 16 1 0 [0] := rfl
  have hspec := kraftScanGo_spec (fun l => lengths.count l) 16 1 0 [0]
    (by omega) (by omega) rfl
  refine ⟨?_, ?_, ?_⟩
  · rintro ⟨j, hj17, hj1, hjf⟩
    have herr := hspec.1 ⟨j, by omega, hj17, hjf⟩
    simp only [getCodesFromLengths]
    rw [heq, herr]
  · intro hall hks
    have hok := hspec.2 (fun j hj1 hj17 => hall j hj17 hj1)
    simp only [getCodesFromLengths]
    rw [heq, hok]
    have hlt : codeAcc (fun l => lengths.count l) 16 < 1 <<< 16 := by
      rw [Nat.one_shiftLeft, codeAcc_eq_two_partialKraft, ← kraftSum_eq_partialKraft]
      have hp : (2 : Nat) ^ 16 = 2 * 2 ^ 15 := by norm_num
      omega
    simp only [if_pos hlt]
  · intro hall hks
    have hok := hspec.2 (fun j hj1 hj17 => hall j hj17 hj1)
    simp only [getCodesFromLengths]
    rw [heq, hok]
    have hge : ¬(codeAcc (fun l => lengths.count l) 16 < 1 <<< 16) := by
      rw [Nat.one_shiftLeft, codeAcc_eq_two_partialKraft, ← kraftSum_eq_partialKraft]
      have hp : (2 : Nat) ^ 16 = 2 * 2 ^ 15 := by norm_num
      omega
    simp only [if_neg hge]
    have hstl : [0] ++ (List.range 16).map (fun t =>
        codeAcc (fun l => lengths.count l) (1 - 1 + t)) =
        [0] ++ (List.range 16).map (fun t => codeAcc (fun l => lengths.count l) t) := by
      congr 1
    rw [hstl]
    have hlength : ([0] ++ (List.range 16).map
        (fun t => codeAcc (fun l => lengths.count l) t)).length = 17 := by
      simp
    have hxlt : ∀ x ∈ lengths, x < ([0] ++ (List.range 16).map
        (fun t => codeAcc (fun l => lengths.count l) t)).length := by
      intro x hx
      rw [hlength]
      have := hlen x hx
      omega
    rw [assignFold_snd _ lengths hxlt]
    congr 1
    apply List.map_congr_left
    intro si hsi
    have hslt : si < lengths.length := List.mem_range.mp hsi
    have hmem : lengths.getD si 0 ∈ lengths := by
      rw [List.getD_eq_getElem?_getD, List.getElem?_eq_getElem hslt]
      exact List.getElem_mem hslt
    rw [startCode_getD _ _ (hlen _ hmem)]

theorem claim_C4_amended_witness :
    (∀ l ∈ [1, 1], l ≤ 16) ∧
    getCodesFromLengths [1, 1] = .ok ((List.range ([1, 1] : List Nat).length).map (fun s =>
      bitRevCode (([1, 1] : List Nat).getD s 0)
        (codeAcc (fun l => ([1, 1] : List Nat).count l) (([1, 1] : List Nat).getD s 0 - 1) +
          (([1, 1] : List Nat).take s).count (([1, 1] : List Nat).getD s 0)))) :=
  ⟨by decide, (claim_C4_amended [1, 1] (by decide)).2.2 (by decide) (by decide)⟩

theorem compress_eq_of (buffer : List Nat) (ct : CompressionType) (fl : Nat)
    (hfl : flevel ct = .ok fl) (blocks : List Nat)
    (hmb : makeBlocks buffer ct = .ok blocks) :
    compress buffer ct = .ok (cmf ::
      (((fl <<< 6) ||| (0 <<< 5)) ||| (31 - (cmf * 256 + ((fl <<< 6) ||| (0 <<< 5))) % 31)) ::
      (blocks ++ convertNetworkByteOrder (adler32 buffer) 4)) := by
  simp only [compress, hfl, hmb, Except.bind, bind, pure, Except.pure]

theorem compress_error_of (buffer : List Nat) (ct : CompressionType) (e : String)
    (hmb : makeBlocks buffer ct = .error e) (fl : Nat) (hfl : flevel ct = .ok fl) :
    compress buffer ct = .error e := by
  simp only [compress, hfl, hmb, Except.bind, bind, pure, Except.pure]

theorem toBytesBEGo_small (fuel n : Nat) (h : n < 256) : toBytesBEGo fuel n = [n] := by
  cases fuel with
  | zero => rfl
  | succ fuel => simp only [toBytesBEGo, if_pos h]

theorem toBytesBEGo_step (fuel n : Nat) (h : ¬n < 256) :
    toBytesBEGo (fuel + 1) n = toBytesBEGo fuel (n / 256) ++ [n % 256] := by
  simp only [toBytesBEGo, if_neg h]

theorem toBytesBEGo_two (fuel n : Nat) (h1 : 256 ≤ n) (h2 : n < 65536) :
    toBytesBEGo (fuel + 1) n = [n / 256, n % 256] := by
  rw [toBytesBEGo_step fuel n (by omega), toBytesBEGo_small fuel (n / 256) (by omega)]
  rfl

theorem toBytesBEGo_three (fuel n : Nat) (h1 : 65536 ≤ n) (h2 : n < 16777216) :
    toBytesBEGo (fuel + 2) n = [n / 65536, n / 256 % 256, n % 256] := by
  rw [toBytesBEGo_step (fuel + 1) n (by omega),
    toBytesBEGo_two fuel (n / 256) (by omega) (by omega)]
  have hd : n / 256 / 256 = n / 65536 := by omega
  rw [hd]
  rfl

theorem toBytesBEGo_four (fuel n : Nat) (h1 : 16777216 ≤ n) (h2 : n < 4294967296) :
    toBytesBEGo (fuel + 3) n = [n / 16777216, n / 65536 % 256, n / 256 % 256, n % 256] := by
  rw [toBytesBEGo_step (fuel + 2) n (by omega),
    toBytesBEGo_three fuel (n / 256) (by omega) (by omega)]
  have hd1 : n / 256 / 65536 = n / 16777216 := by omega
  have hd2 : n / 256 / 256 % 256 = n / 65536 % 256 := by omega
  rw [hd1, hd2]
  rfl

/-- `convertNetworkByteOrder a 4` is the 4-byte big-endian encoding for any
32-bit value. -/
theorem convertNetworkByteOrder_four (a : Nat) (h : a < 4294967296) :
    convertNetworkByteOrder a 4 =
      [a / 16777216 % 256, a / 65536 % 256, a / 256 % 256, a % 256] := by
  simp only [convertNetworkByteOrder, toBytesBE]
  by_cases h1 : a < 256
  · rw [toBytesBEGo_small a a h1]
    have hr : List.replicate (4 - ([a] : List Nat).length) (0 : Nat) = [0, 0, 0] := rfl
    rw [hr]
    simp only [List.cons_append, List.nil_append, List.cons.injEq, and_true]
    omega
  · by_cases h2 : a < 65536
    · have ha : ∃ f, a = f + 1 := ⟨a - 1, by omega⟩
      rcases ha with ⟨f, rfl⟩
      rw [toBytesBEGo_two f (f + 1) (by omega) h2]
      have hr : List.replicate (4 - ([(f + 1) / 256, (f + 1) % 256] : List Nat).length)
          (0 : Nat) = [0, 0] := rfl
      rw [hr]
      simp only [List.cons_append, List.nil_append, List.cons.injEq, and_true]
      omega
    · by_cases h3 : a < 16777216
      · have ha : ∃ f, a = f + 2 := ⟨a - 2, by omega⟩
        rcases ha with ⟨f, rfl⟩
        rw [toBytesBEGo_three f (f + 2) (by omega) h3]
        have hr : List.replicate
            (4 - ([(f + 2) / 65536, (f + 2) / 256 % 256, (f + 2) % 256] : List Nat).length)
            (0 : Nat) = [0] := rfl
        rw [hr]
        simp only [List.cons_append, List.nil_append, List.cons.injEq, and_true]
        omega
      · have ha : ∃ f, a = f + 3 := ⟨a - 3, by omega⟩
        rcases ha with ⟨f, rfl⟩
        rw [toBytesBEGo_four f (f + 3) (by omega) h]
        have hr : List.replicate (4 - ([(f + 3) / 16777216, (f + 3) / 65536 % 256,
            (f + 3) / 256 % 256, (f + 3) % 256] : List Nat).length) (0 : Nat) = [] := rfl
        rw [hr]
        simp only [List.nil_append, List.cons.injEq, and_true]
        omega

theorem adlerFold_lt (arr : List Nat) : ∀ s : Nat × Nat, s.1 < 65521 → s.2 < 65521 →
    (arr.foldl adlerStep s).1 < 65521 ∧ (arr.foldl adlerStep s).2 < 65521 := by
  induction arr with
  | nil => intro s h1 h2; exact ⟨h1, h2⟩
  | cons b t ih =>
    intro s h1 h2
    rw [List.foldl_cons]
    exact ih _ (Nat.mod_lt _ (by omega)) (Nat.mod_lt _ (by omega))

theorem adler32_lt (arr : List Nat) : adler32 arr < 4294967296 := by
  simp only [adler32, updateAdler32]
  have h := adlerFold_lt arr (1 % 65536, 1 / 65536 % 65536) (by omega) (by omega)
  omega

theorem trailer_shape (buffer blocks : List Nat) (f : Nat) :
    4 ≤ (cmf :: f :: (blocks ++ convertNetworkByteOrder (adler32 buffer) 4)).length ∧
    (cmf :: f :: (blocks ++ convertNetworkByteOrder (adler32 buffer) 4)).drop
        ((cmf :: f :: (blocks ++ convertNetworkByteOrder (adler32 buffer) 4)).length - 4) =
      [adler32 buffer / 16777216 % 256, adler32 buffer / 65536 % 256,
        adler32 buffer / 256 % 256, adler32 buffer % 256] := by
  have hadler := convertNetworkByteOrder_four (adler32 buffer) (adler32_lt buffer)
  rw [hadler]
  constructor
  · simp only [List.length_cons, List.length_append]
    omega
  · rw [← List.cons_append, ← List.cons_append]
    have hlen : ((cmf :: f :: blocks) ++ [adler32 buffer / 16777216 % 256,
        adler32 buffer / 65536 % 256, adler32 buffer / 256 % 256,
        adler32 buffer % 256]).length - 4 = (cmf :: f :: blocks).length := by
      simp only [List.length_append, List.length_cons, List.length_nil]
      omega
    rw [hlen, List.drop_left]

/-- C6: whenever compress succeeds, the first byte is CMF = 0x78, the
header passes the FCHECK test `(CMF*256 + FLG) % 31 = 0`, and the last four
bytes are the big-endian Adler-32 of the uncompressed input. -/
theorem claim_C6 (buffer : List Nat) (ct : CompressionType) (out : List Nat)
    (h : compress buffer ct = .ok out) :
    out.getD 0 0 = 120 ∧
    (out.getD 0 0 * 256 + out.getD 1 0) % 31 = 0 ∧
    4 ≤ out.length ∧
    out.drop (out.length - 4) =
      [adler32 buffer / 16777216 % 256, adler32 buffer / 65536 % 256,
        adler32 buffer / 256 % 256, adler32 buffer % 256] := by
  cases ct with
  | RESERVED =>
    have hres : compress buffer CompressionType.RESERVED =
        .error "unsupported compression type" := rfl
    rw [hres] at h
    cases h
  | NONE =>
    rcases hmb : makeBlocks buffer CompressionType.NONE with e | blocks
    · rw [compress_error_of buffer CompressionType.NONE e hmb 0 rfl] at h
      cases h
    · rw [compress_eq_of buffer CompressionType.NONE 0 rfl blocks hmb] at h
      cases h
      exact ⟨by simp only [List.getD_cons_zero]; decide,
        by simp only [List.getD_cons_zero, List.getD_cons_succ]; decide,
        (trailer_shape buffer blocks _).1, (trailer_shape buffer blocks _).2⟩
  | FIXED =>
    rcases hmb : makeBlocks buffer CompressionType.FIXED with e | blocks
    · rw [compress_error_of buffer CompressionType.FIXED e hmb 1 rfl] at h
      cases h
    · rw [compress_eq_of buffer CompressionType.FIXED 1 rfl blocks hmb] at h
      cases h
      exact ⟨by simp only [List.getD_cons_zero]; decide,
        by simp only [List.getD_cons_zero, List.getD_cons_succ]; decide,
        (trailer_shape buffer blocks _).1, (trailer_shape buffer blocks _).2⟩
  | CUSTOM =>
    rcases hmb : makeBlocks buffer CompressionType.CUSTOM with e | blocks
    · rw [compress_error_of buffer CompressionType.CUSTOM e hmb 2 rfl] at h
      cases h
    · rw [compress_eq_of buffer CompressionType.CUSTOM 2 rfl blocks hmb] at h
      cases h
      exact ⟨by simp only [List.getD_cons_zero]; decide,
        by simp only [List.getD_cons_zero, List.getD_cons_succ]; decide,
        (trailer_shape buffer blocks _).1, (trailer_shape buffer blocks _).2⟩

theorem claim_C6_witness :
    (compress [1, 2, 3] CompressionType.NONE = .ok [120, 1, 1, 3, 0, 252, 255, 1, 2, 3, 0, 13, 0, 7]) ∧
    (([120, 1, 1, 3, 0, 252, 255, 1, 2, 3, 0, 13, 0, 7] : List Nat).getD 0 0 = 120 ∧
      (([120, 1, 1, 3, 0, 252, 255, 1, 2, 3, 0, 13, 0, 7] : List Nat).getD 0 0 * 256 + ([120, 1, 1, 3, 0, 252, 255, 1, 2, 3, 0, 13, 0, 7] : List Nat).getD 1 0) % 31 = 0 ∧
      4 ≤ ([120, 1, 1, 3, 0, 252, 255, 1, 2, 3, 0, 13, 0, 7] : List Nat).length ∧
      ([120, 1, 1, 3, 0, 252, 255, 1, 2, 3, 0, 13, 0, 7] : List Nat).drop (([120, 1, 1, 3, 0, 252, 255, 1, 2, 3, 0, 13, 0, 7] : List Nat).length - 4) =
        [adler32 [1, 2, 3] / 16777216 % 256, adler32 [1, 2, 3] / 65536 % 256,
          adler32 [1, 2, 3] / 256 % 256, adler32 [1, 2, 3] % 256]) :=
  ⟨by rfl, claim_C6 [1, 2, 3] CompressionType.NONE [120, 1, 1, 3, 0, 252, 255, 1, 2, 3, 0, 13, 0, 7] (by rfl)⟩

set_option maxRecDepth 100000 in
theorem getLengthCode_fst_gt_aux : ∀ l < 259, 3 ≤ l → 256 < (getLengthCode l).1 := by
  decide

theorem customHuffmanWrites_lit (C L D DL : List Nat) (b : Nat) (hb : b < 256)
    (X : List Nat) :
    customHuffmanWrites C L D DL (b :: X) =
      (C.getD b 0, L.getD b 0) :: customHuffmanWrites C L D DL X := by
  rw [customHuffmanWrites.eq_def]
  dsimp only
  rw [if_neg (by omega : ¬b > 256), if_neg (by omega : ¬b = 256)]

theorem customHuffmanWrites_mat (C L D DL : List Nat) (c : Nat) (hc : c > 256)
    (e1 e2 dc f1 f2 : Nat) (X : List Nat) :
    customHuffmanWrites C L D DL (c :: e1 :: e2 :: dc :: f1 :: f2 :: X) =
      (C.getD c 0, L.getD c 0) :: (e1, e2) :: (D.getD dc 0, DL.getD dc 0) :: (f1, f2) ::
        customHuffmanWrites C L D DL X := by
  rw [customHuffmanWrites.eq_def]
  dsimp only
  rw [if_pos hc]

theorem customHuffmanWrites_eob (C L D DL : List Nat) :
    customHuffmanWrites C L D DL [256] = [(C.getD 256 0, L.getD 256 0)] := by
  rfl

theorem getLengthCode_fst_gt (l : Nat) (h3 : 3 ≤ l) (h258 : l ≤ 258) :
    256 < (getLengthCode l).1 :=
  getLengthCode_fst_gt_aux l (by omega) h3

/-- Every literal token the lz77 main loop pushes is a byte of the input. -/
theorem lz77LoopGo_lits (data : List Nat) (isDynamic : Bool) :
    ∀ fuel pos st,
      (∀ b, Lz77Token.lit b ∈ st.tokens → b ∈ data) →
      ∀ b, Lz77Token.lit b ∈ (lz77LoopGo data isDynamic fuel pos st).tokens → b ∈ data := by
  intro fuel
  induction fuel with
  | zero =>
    intro pos st hok b hmem
    exact hok b hmem
  | succ fuel ih =>
    intro pos st hok b hmem
    simp only [lz77LoopGo] at hmem
    by_cases hlt : pos < data.length
    swap
    · rw [if_neg hlt] at hmem
      exact hok b hmem
    rw [if_pos hlt] at hmem
    by_cases hflush : ((data.drop pos).take 3).length < 3 ∧ st.skipLength = 0
    · rw [if_pos hflush] at hmem
      simp only [List.mem_append] at hmem
      rcases hmem with hmem | hmem
      · exact hok b hmem
      · rcases List.mem_map.mp hmem with ⟨y, hy, hyb⟩
        injection hyb with hyb
        rw [← hyb]
        exact List.mem_of_mem_drop (List.mem_of_mem_take hy)
    · rw [if_neg hflush] at hmem
      set K := ((data.drop pos).take 3).foldl (fun k b => (k <<< 8) ||| (b % 256)) 0 with hK
      by_cases hskip : st.skipLength > 0
      · rw [if_pos hskip] at hmem
        exact ih (pos + 1)
          { st with
            skipLength := st.skipLength - 1,
            table := tableSet st.table K (st.table K ++ [pos]) }
          hok b hmem
      · rw [if_neg hskip] at hmem
        set ML := (st.table K).dropWhile (fun q => decide (32768 < pos - q)) with hML
        by_cases hempty : ML.isEmpty
        · rw [if_pos hempty] at hmem
          refine ih (pos + 1)
            { st with
              tokens := st.tokens ++ [Lz77Token.lit (data.getD pos 0)],
              freqsLitLen := if isDynamic then incAt st.freqsLitLen (data.getD pos 0)
                             else st.freqsLitLen,
              table := tableSet st.table K (ML ++ [pos]) }
            ?_ b hmem
          intro b' hmem'
          simp only [List.mem_append] at hmem'
          rcases hmem' with hmem' | hmem'
          · exact hok b' hmem'
          · rcases List.mem_singleton.mp hmem' with hlitm
            injection hlitm with hb
            rw [hb]
            have hgd : data.getD pos 0 = data[pos] := by
              simp [List.getD_eq_getElem?_getD, List.getElem?_eq_getElem, hlt]
            rw [hgd]
            exact List.getElem_mem hlt
        · rw [if_neg hempty] at hmem
          refine ih (pos + 1)
            { st with
              tokens := st.tokens ++
                [Lz77Token.mat pos (searchLongestMatch data pos ML).1
                  (searchLongestMatch data pos ML).2],
              freqsLitLen := if isDynamic then
                  incAt st.freqsLitLen
                    ((toLz77Array (searchLongestMatch data pos ML).1
                      (searchLongestMatch data pos ML).2).getD 0 0)
                else st.freqsLitLen,
              freqsDist := if isDynamic then
                  incAt st.freqsDist
                    ((toLz77Array (searchLongestMatch data pos ML).1
                      (searchLongestMatch data pos ML).2).getD 3 0)
                else st.freqsDist,
              skipLength := (searchLongestMatch data pos ML).1 - 1,
              table := tableSet st.table K (ML ++ [pos]) }
            ?_ b hmem
          intro b' hmem'
          simp only [List.mem_append] at hmem'
          rcases hmem' with hmem' | hmem'
          · exact hok b' hmem'
          · rcases List.mem_singleton.mp hmem' with hlitm
            cases hlitm

/-- The dynamic-Huffman token loop on a well-formed token stream followed by
the end-of-block literal 256: its write list ends with the code for 256. -/
theorem customHuffmanWrites_tokens (C L D DL : List Nat) :
    ∀ toks : List Lz77Token,
      (∀ t ∈ toks, (∃ b, t = Lz77Token.lit b ∧ b < 256) ∨
        (∃ p l d, t = Lz77Token.mat p l d ∧ 3 ≤ l ∧ l ≤ 258)) →
      ∃ ws, customHuffmanWrites C L D DL (toks.flatMap Lz77Token.encode ++ [256]) =
        ws ++ [(C.getD 256 0, L.getD 256 0)] := by
  intro toks
  induction toks with
  | nil =>
    intro _
    refine ⟨[], ?_⟩
    rw [List.flatMap_nil, List.nil_append, customHuffmanWrites_eob, List.nil_append]
  | cons t rest ih =>
    intro hwf
    have hwf' := fun t' ht' => hwf t' (List.mem_cons_of_mem _ ht')
    rcases ih hwf' with ⟨ws, hws⟩
    rcases hwf t (List.mem_cons_self _ _) with ⟨b, rfl, hb⟩ | ⟨p, l, d, rfl, h3, h258⟩
    · refine ⟨(C.getD b 0, L.getD b 0) :: ws, ?_⟩
      simp only [List.flatMap_cons, Lz77Token.encode, List.cons_append, List.nil_append,
        List.append_assoc]
      rw [customHuffmanWrites_lit C L D DL b hb, hws]
    · rcases hgl : getLengthCode l with ⟨c, e1, e2⟩
      rcases hgd : getDistanceCode d with ⟨dc, f1, f2⟩
      have hc : c > 256 := by
        have hh := getLengthCode_fst_gt l h3 h258
        rw [hgl] at hh
        exact hh
      refine ⟨(C.getD c 0, L.getD c 0) :: (e1, e2) :: (D.getD dc 0, DL.getD dc 0) ::
        (f1, f2) :: ws, ?_⟩
      simp only [List.flatMap_cons, Lz77Token.encode, toLz77Array, hgl, hgd,
        List.cons_append, List.nil_append, List.append_assoc]
      rw [customHuffmanWrites_mat C L D DL c hc, hws]

/-- C10: the dynamic-Huffman block body ends with the literal/length code
for symbol 256 twice in a row: the token loop encodes the terminating 256
of the LZ77 stream, and makeCustomHuffmanBlock issues one more write of the
same code right after the loop (modelled here by the trailing `writeBits`
applied to the token-loop output, exactly as in the block builder). -/
theorem claim_C10 (blockArray : List Nat) (hbytes : ∀ b ∈ blockArray, b < 256)
    (litLenCodes litLenLengths distCodes distLengths : List Nat) (stream : BitStream) :
    ∃ ws,
      (customHuffman litLenCodes litLenLengths distCodes distLengths
          (lz77 blockArray true) stream).writeBits
        (litLenCodes.getD 256 0) (litLenLengths.getD 256 0) true =
      (ws ++ [(litLenCodes.getD 256 0, litLenLengths.getD 256 0),
              (litLenCodes.getD 256 0, litLenLengths.getD 256 0)]).foldl
        (fun s w => s.writeBits w.1 w.2 true) stream := by
  have htok : (lz77Run blockArray true).tokens =
      (lz77Loop blockArray true 0 ⟨fun _ => [], 0, [],
        if true then List.replicate 286 0 else [],
        if true then List.replicate 30 0 else []⟩).tokens ++ [Lz77Token.lit 256] := rfl
  have hwf : ∀ t ∈ (lz77Loop blockArray true 0 ⟨fun _ => [], 0, [],
      if true then List.replicate 286 0 else [],
      if true then List.replicate 30 0 else []⟩).tokens,
      (∃ b, t = Lz77Token.lit b ∧ b < 256) ∨
        (∃ p l d, t = Lz77Token.mat p l d ∧ 3 ≤ l ∧ l ≤ 258) := by
    intro t ht
    cases t with
    | lit b =>
      left
      refine ⟨b, rfl, hbytes b ?_⟩
      exact lz77LoopGo_lits blockArray true (blockArray.length - 0) 0 _
        (fun b' hb' => absurd hb' (List.not_mem_nil _)) b ht
    | mat p l d =>
      right
      have hko := lz77LoopGo_sound blockArray hbytes true (blockArray.length - 0) 0 _
        (fun _ => ⟨fun q hq => absurd hq (List.not_mem_nil q), List.Pairwise.nil⟩)
        (fun p' l' d' hq => absurd hq (List.not_mem_nil _)) p l d ht
      exact ⟨p, l, d, rfl, hko.2.2.1, hko.2.2.2.1⟩
  have hflat : lz77 blockArray true =
      (lz77Loop blockArray true 0 ⟨fun _ => [], 0, [],
        if true then List.replicate 286 0 else [],
        if true then List.replicate 30 0 else []⟩).tokens.flatMap Lz77Token.encode
        ++ [256] := by
    simp only [lz77]
    rw [htok, List.flatMap_append]
    rfl
  obtain ⟨ws0, hws0⟩ := customHuffmanWrites_tokens litLenCodes litLenLengths
    distCodes distLengths _ hwf
  refine ⟨ws0, ?_⟩
  simp only [customHuffman]
  rw [hflat, hws0, List.foldl_append, List.foldl_append]
  simp only [List.foldl_cons, List.foldl_nil]

theorem claim_C10_witness :
    ∃ ws,
      (customHuffman [] [] [] [] (lz77 [97, 97, 97, 97, 97, 97] true)
          BitStream.empty).writeBits
        (([] : List Nat).getD 256 0) (([] : List Nat).getD 256 0) true =
      (ws ++ [(([] : List Nat).getD 256 0, ([] : List Nat).getD 256 0),
              (([] : List Nat).getD 256 0, ([] : List Nat).getD 256 0)]).foldl
        (fun s w => s.writeBits w.1 w.2 true) BitStream.empty :=
  claim_C10 [97, 97, 97, 97, 97, 97] (by decide) [] [] [] [] BitStream.empty

theorem jsSet_front8 (a0 a1 a2 a3 a4 a5 a6 a7 c0 c1 c2 c3 t0 t1 t2 t3 : Nat)
    (X : List Nat) :
    jsSet (jsSet (jsSet (jsSet (jsSet (jsSet (jsSet (jsSet
      (a0 :: a1 :: a2 :: a3 :: a4 :: a5 :: a6 :: a7 :: X) 0 c0) 1 c1) 2 c2) 3 c3)
      4 t0) 5 t1) 6 t2) 7 t3 =
    c0 :: c1 :: c2 :: c3 :: t0 :: t1 :: t2 :: t3 :: X := by
  simp [jsSet]

theorem set_append_right_len (l r : List Nat) (i v : Nat) :
    (l ++ r).set (l.length + i) v = l ++ r.set i v := by
  rw [List.set_append]
  simp

theorem jsSet_back4 (Q : List Nat) (x0 x1 x2 x3 v0 v1 v2 v3 : Nat) :
    jsSet (jsSet (jsSet (jsSet (Q ++ [x0, x1, x2, x3])
        ((Q ++ [x0, x1, x2, x3]).length - 4) v0)
        ((Q ++ [x0, x1, x2, x3]).length - 4 + 1) v1)
        ((Q ++ [x0, x1, x2, x3]).length - 4 + 2) v2)
        ((Q ++ [x0, x1, x2, x3]).length - 4 + 3) v3 = Q ++ [v0, v1, v2, v3] := by
  have hlen : (Q ++ [x0, x1, x2, x3]).length - 4 = Q.length := by
    simp
  rw [hlen]
  have h0 : jsSet (Q ++ [x0, x1, x2, x3]) Q.length v0 = Q ++ [v0, x1, x2, x3] := by
    rw [jsSet, if_pos (by simp)]
    have h := set_append_right_len Q [x0, x1, x2, x3] 0 v0
    simpa using h
  rw [h0]
  have h1 : jsSet (Q ++ [v0, x1, x2, x3]) (Q.length + 1) v1 = Q ++ [v0, v1, x2, x3] := by
    rw [jsSet, if_pos (by simp)]
    have h := set_append_right_len Q [v0, x1, x2, x3] 1 v1
    simpa using h
  rw [h1]
  have h2 : jsSet (Q ++ [v0, v1, x2, x3]) (Q.length + 2) v2 = Q ++ [v0, v1, v2, x3] := by
    rw [jsSet, if_pos (by simp)]
    have h := set_append_right_len Q [v0, v1, x2, x3] 2 v2
    simpa using h
  rw [h2]
  rw [jsSet, if_pos (by simp)]
  have h := set_append_right_len Q [v0, v1, v2, x3] 3 v3
  simpa using h

/-- C8: a chunk built by makeChunk_ stores the payload byte count in its
4-byte big-endian length field and, in its last four bytes, the big-endian
CRC-32 (table-driven, seeded 0xFFFFFFFF, XOR-inverted) of the 4 type bytes
followed by the payload bytes. -/
theorem claim_C8 (ctype pre8 payload post4 : List Nat)
    (ht : ctype.length = 4) (hp : pre8.length = 8) (hq : post4.length = 4) :
    makeChunk ctype (pre8 ++ (payload ++ post4)) =
      [payload.length / 16777216 % 256, payload.length / 65536 % 256,
        payload.length / 256 % 256, payload.length % 256] ++ ctype ++ payload ++
      [getCRC32 (ctype ++ payload) / 16777216 % 256,
        getCRC32 (ctype ++ payload) / 65536 % 256,
        getCRC32 (ctype ++ payload) / 256 % 256,
        getCRC32 (ctype ++ payload) % 256] := by
  match ctype, ht, pre8, hp, post4, hq with
  | [t0, t1, t2, t3], _, [a0, a1, a2, a3, a4, a5, a6, a7], _, [x0, x1, x2, x3], _ =>
    simp only [makeChunk]
    simp only [List.cons_append, List.nil_append]
    simp only [List.getD_cons_zero, List.getD_cons_succ]
    have hlen12 : (a0 :: a1 :: a2 :: a3 :: a4 :: a5 :: a6 :: a7 ::
        (payload ++ [x0, x1, x2, x3])).length - 12 = payload.length := by
      simp
    rw [hlen12]
    rw [jsSet_front8]
    have hcrceq : CRC32calc (payload.length / 16777216 % 256 ::
        payload.length / 65536 % 256 :: payload.length / 256 % 256 ::
        payload.length % 256 :: t0 :: t1 :: t2 :: t3 ::
        (payload ++ [x0, x1, x2, x3])) 4 (4 + payload.length) =
        getCRC32 (t0 :: t1 :: t2 :: t3 :: payload) := by
      simp only [CRC32calc]
      have h44 : 4 + payload.length = payload.length + 4 := by omega
      rw [h44]
      simp only [List.drop_succ_cons, List.drop_zero]
      rw [List.take_succ_cons, List.take_succ_cons, List.take_succ_cons,
        List.take_succ_cons, List.take_left]
    rw [hcrceq]
    have hassoc : (payload.length / 16777216 % 256 :: payload.length / 65536 % 256 ::
        payload.length / 256 % 256 :: payload.length % 256 :: t0 :: t1 :: t2 :: t3 ::
        (payload ++ [x0, x1, x2, x3])) =
        (payload.length / 16777216 % 256 :: payload.length / 65536 % 256 ::
          payload.length / 256 % 256 :: payload.length % 256 :: t0 :: t1 :: t2 :: t3 ::
          payload) ++ [x0, x1, x2, x3] := by
      simp
    rw [hassoc, jsSet_back4]
    simp

theorem claim_C8_witness :
    (([73, 72, 68, 82] : List Nat).length = 4 ∧
      ([0, 0, 0, 0, 0, 0, 0, 0] : List Nat).length = 8 ∧
      ([0, 0, 0, 0] : List Nat).length = 4) ∧
    makeChunk [73, 72, 68, 82] ([0, 0, 0, 0, 0, 0, 0, 0] ++ ([1, 2, 3] ++ [0, 0, 0, 0])) =
      [([1, 2, 3] : List Nat).length / 16777216 % 256,
        ([1, 2, 3] : List Nat).length / 65536 % 256,
        ([1, 2, 3] : List Nat).length / 256 % 256,
        ([1, 2, 3] : List Nat).length % 256] ++ [73, 72, 68, 82] ++ [1, 2, 3] ++
      [getCRC32 ([73, 72, 68, 82] ++ [1, 2, 3]) / 16777216 % 256,
        getCRC32 ([73, 72, 68, 82] ++ [1, 2, 3]) / 65536 % 256,
        getCRC32 ([73, 72, 68, 82] ++ [1, 2, 3]) / 256 % 256,
        getCRC32 ([73, 72, 68, 82] ++ [1, 2, 3]) % 256] :=
  ⟨⟨by decide, by decide, by decide⟩,
    claim_C8 [73, 72, 68, 82] [0, 0, 0, 0, 0, 0, 0, 0] [1, 2, 3] [0, 0, 0, 0]
      (by decide) (by decide) (by decide)⟩

/-- C9. The claim says each Adam7 pass contains exactly the source pixels at
`x = xStart + i*xStep < W`, `y = yStart + j*yStep < H` in row-major order,
with the recorded pass width/height equal to the counts of selected columns
and rows. The code violates both parts: (a) for a 1x1 raster, pass 2 selects
no column (count 0) and no pixel, yet records width 1, because the recorded
dimensions are `linex + 1` / `liney + 1` with `linex`/`liney` left at 0 when
nothing is pushed; (b) for a raster 4 pixels wide, pass 6 reads the flat
index `(blockx + passx) + (blocky + passy) * width` with `blockx + passx`
up to 7 ≥ width, wrapping into later rows, so it includes pixels at
unselected coordinates. This theorem evaluates the code at both failing
inputs. -/
theorem claim_C9_interlace_divergence :
    (((interlaceAdam7 [[9]] 1).getD 1 ⟨0, 0, []⟩).width = 1 ∧
      (adam7SelectedCols 1 4 8).length = 0 ∧
      ((interlaceAdam7 [[9]] 1).getD 1 ⟨0, 0, []⟩).pixelArray = []) ∧
    ((interlaceAdam7 ((List.range 32).map (fun i => [i])) 8).getD 5 ⟨0, 0, []⟩).pixelArray ≠
      adam7Selected ((List.range 32).map (fun i => [i])) 4 8 1 0 2 2 := by
  decide

set_option maxHeartbeats 1000000 in
/-- C5 counterexample. The claim says the staged search (8-byte strides
plus refinement) returns the same `(length, distance)` pair as the naive
byte-by-byte search with longest-then-nearest tie-breaking, for every
input, position and candidate list. On `ceData` with position 518 and
candidates `[0, 259]` - a well-formed situation: both candidates are in
the window, share the 3-byte prefix, and precede the position - candidate 0
matches 259 bytes and candidate 259 exactly 258. The stride phase tests
offsets 251..258 as one block, discarding candidate 259, so the staged
search answers `(258, 518)`; the naive search clamps both candidates to
258 and picks the nearer candidate 259, answering `(258, 259)`. -/
theorem claim_C5_counterexample :
    searchLongestMatch ceData 518 [0, 259] = (258, 518) ∧
    naiveSearch ceData 518 [0, 259] = (258, 259) ∧
    searchLongestMatch ceData 518 [0, 259] ≠ naiveSearch ceData 518 [0, 259] ∧
    (518 + 3 ≤ ceData.length ∧ ∀ q ∈ [0, 259], q < 518 ∧ 518 - q ≤ 32768 ∧
      ∀ i < 3, ceData.getD (q + i) 0 = ceData.getD (518 + i) 0) := by
  have h0 : matchRun ceData 0 518 = 259 := by decide
  have h1 : matchRun ceData 259 518 = 258 := by decide
  have hgood : ∀ q ∈ [0, 259], GoodCand ceData 518 q := by
    intro q hq
    rcases List.mem_cons.mp hq with rfl | hq'
    · exact ⟨by decide, by decide⟩
    · rcases List.mem_singleton.mp hq' with rfl
      exact ⟨by decide, by decide⟩
  have hmax : maxRun ceData 518 [0, 259] = 259 := by
    simp only [maxRun, List.map_cons, List.map_nil, h0, h1]
    decide
  have hstaged : searchLongestMatch ceData 518 [0, 259] = (258, 518) := by
    have hspec := (searchLongestMatch_spec ceData 518 [0, 259] hgood (by decide)
      (by decide)).2 hmax.ge
    have e0 : decide (259 ≤ matchRun ceData 0 518) = true := by
      rw [h0]
      decide
    have e1 : decide (259 ≤ matchRun ceData 259 518) = false := by
      rw [h1]
      decide
    have hfil : [0, 259].filter (fun q => decide (259 ≤ matchRun ceData q 518)) = [0] := by
      simp [List.filter, e0, e1]
    rw [hfil] at hspec
    rw [hspec]
    decide
  have hnaive : naiveSearch ceData 518 [0, 259] = (258, 259) := by
    simp only [naiveSearch, List.foldl_cons, List.foldl_nil, naiveMatchLength, h0, h1]
    decide
  refine ⟨hstaged, hnaive, ?_, by decide⟩
  rw [hstaged, hnaive]
  decide

end ZlibJS
